import Mathlib

/-!
# Styled parameter binding (`pkg/runtime/bindparam.go`)

A shallow embedding of `splitParameter` and `BindStyledParameter`, and the
properties of the URI parameter serialization grammars they implement.

Go strings are modelled as lists of characters. Every delimiter the code
compares against (`,` `.` `;` `&` `=`) is a single ASCII byte, and all other
comparisons are whole-string prefix tests, so splitting a list of characters
gives the same pieces as splitting the UTF-8 bytes.
-/

namespace Runtime

/-- A Go `string`. -/
abbrev GoString := List Char

/-- A Go `error`, identified with the text returned by its `Error()` method. -/
abbrev GoError := GoString

/-! ## The `strings` functions used by the code -/

/-- Go `strings.Split(s, sep)` for a one-byte separator: the pieces of `s`
between the occurrences of `sep`. The result always has one piece more than
`s` has separators; in particular `Split "" sep = [""]`. -/
def strings.Split : GoString → Char → List GoString
  | [], _ => [[]]
  | c :: cs, sep =>
    if c = sep then [] :: strings.Split cs sep
    else
      match strings.Split cs sep with
      | [] => [[c]]
      | p :: ps => (c :: p) :: ps

/-- Go `strings.Join(elems, sep)`. -/
def strings.Join : List GoString → GoString → GoString
  | [], _ => []
  | [a], _ => a
  | a :: b :: rest, sep => a ++ sep ++ strings.Join (b :: rest) sep

/-- Go `strings.HasPrefix(s, pfx)`. -/
def strings.HasPrefix (s pfx : GoString) : Bool :=
  pfx.isPrefixOf s

/-- Go `strings.TrimPrefix(s, pfx)`: `s` without the leading `pfx` when it has
one, otherwise `s` itself. At most one occurrence is removed. -/
def strings.TrimPrefix (s pfx : GoString) : GoString :=
  if strings.HasPrefix s pfx then s.drop pfx.length else s

/-! ## Results -/

/-- The outcome of a Go function returning `(T, error)`: a value with a nil
error, a non-nil error, or a run-time panic (index out of range). -/
inductive GoResult (α : Type) where
  | ok (a : α)
  | err (e : GoError)
  | panic
  deriving DecidableEq, Repr

/-! ## `splitParameter` -/

/-- The loop `for i := range parts { parts[i] = strings.TrimPrefix(parts[i], pfx) }`. -/
def trimEach (parts : List GoString) (pfx : GoString) : List GoString :=
  parts.map (fun p => strings.TrimPrefix p pfx)

/-- The function `splitParameter` of `bindparam.go`. -/
def splitParameter (style : GoString) (explode object : Bool)
    (paramName value : GoString) : GoResult (List GoString) :=
  if style = "simple".toList then
    -- In the simple case, we always split on comma
    .ok (strings.Split value ',')
  else if style = "label".toList then
    if explode then
      -- split everything on periods; parts[0] must be the empty string
      match strings.Split value '.' with
      | [] => .panic
      | p0 :: rest =>
        if p0 ≠ [] then
          .err ("invalid format for label parameter '".toList ++ paramName
                  ++ "', should start with '.'".toList)
        else .ok rest
    else
      -- value[0] != '.', then strings.Split(value[1:], ",")
      match value with
      | [] => .panic
      | c :: rest =>
        if c ≠ '.' then
          .err ("invalid format for label parameter '".toList ++ paramName
                  ++ "', should start with '.'".toList)
        else .ok (strings.Split rest ',')
  else if style = "matrix".toList then
    if explode then
      match strings.Split value ';' with
      | [] => .panic
      | p0 :: rest =>
        if p0 ≠ [] then
          .err ("invalid format for matrix parameter '".toList ++ paramName
                  ++ "', should start with ';'".toList)
        else if !object then .ok (trimEach rest (paramName ++ "=".toList))
        else .ok rest
    else
      let pfx := ";".toList ++ paramName ++ "=".toList
      if !strings.HasPrefix value pfx then
        .err ("expected parameter '".toList ++ paramName ++ "' to start with ".toList ++ pfx)
      else .ok (strings.Split (strings.TrimPrefix value pfx) ',')
  else if style = "form".toList then
    if explode then
      let parts := strings.Split value '&'
      if !object then .ok (trimEach parts (paramName ++ "=".toList))
      else .ok parts
    else
      .ok (trimEach (strings.Split value ',') (paramName ++ "=".toList))
  else
    .err ("unhandled parameter style: ".toList ++ style)

/-! ## `BindStyledParameter` -/

/-- The destination `dest` points to, by the `reflect.Kind` of its type:
a struct, a slice, or any other ("base") type. -/
inductive Dest (α ρ : Type) where
  | struct (r : ρ)
  | slice (xs : List α)
  | base (a : α)
  deriving DecidableEq, Repr

/-- The two decoders `BindStyledParameter` calls and does not define:
`BindStringToObject(src, dst)` (file `bindstring.go`) and `json.Unmarshal(data, dst)`.
Each receives the current value behind the destination pointer and gives the
value left there together with the error it returns. `zero` is the zero value
of the slice's element type, which `reflect.MakeSlice` fills the new slice with. -/
structure Decoders (α ρ : Type) where
  BindStringToObject : GoString → α → α × Option GoError
  jsonUnmarshal : GoString → ρ → ρ × Option GoError
  zero : α

/-- A call made to one of the decoders, with the text handed to it. -/
inductive Call where
  | BindStringToObject (src : GoString)
  | jsonUnmarshal (data : GoString)
  deriving DecidableEq, Repr

/-- What a call of `BindStyledParameter` does: it returns `err` leaving `dest`
behind the destination pointer after making the decoder calls `calls` (in
order), or it panics. -/
inductive BindOutcome (α ρ : Type) where
  | returned (dest : Dest α ρ) (err : Option GoError) (calls : List Call)
  | panic
  deriving DecidableEq, Repr

/-- The exploded pairing loop (lines 37-43): every part is split on `=` and
must give exactly two pieces, the key and the value. -/
def explodedPairs (paramName : GoString) :
    List GoString → GoResult (List (GoString × GoString))
  | [] => .ok []
  | property :: rest =>
    match strings.Split property '=' with
    | [k, v] =>
      match explodedPairs paramName rest with
      | .ok ps => .ok ((k, v) :: ps)
      | r => r
    | _ => .err ("parameter '".toList ++ paramName ++ "' has invalid exploded format".toList)

/-- The loop `for i := 0; i < len(parts); i += 2` (lines 49-53), reading
`parts[i]` and `parts[i+1]`. -/
def pairUp : List GoString → GoResult (List (GoString × GoString))
  | [] => .ok []
  | [_] => .panic
  | key :: value :: rest =>
    match pairUp rest with
    | .ok ps => .ok ((key, value) :: ps)
    | r => r

/-- The non-exploded pairing (lines 45-53): an odd number of parts is an
error, otherwise the parts are taken two at a time. -/
def unexplodedPairs (paramName : GoString) (parts : List GoString) :
    GoResult (List (GoString × GoString)) :=
  if parts.length % 2 ≠ 0 then
    .err ("parameter '".toList ++ paramName
            ++ "' has invalid format, property/values need to be pairs".toList)
  else pairUp parts

/-- The text `"\"" + key + "\":\"" + value + "\""` stored in `fields`. -/
def jsonField (kv : GoString × GoString) : GoString :=
  "\"".toList ++ kv.1 ++ "\":\"".toList ++ kv.2 ++ "\"".toList

/-- The text `"{" + strings.Join(fields, ",") + "}"` handed to `json.Unmarshal`. -/
def jsonParam (pairs : List (GoString × GoString)) : GoString :=
  "\x7b".toList ++ strings.Join (pairs.map jsonField) ",".toList ++ "\x7d".toList

/-- The element loop of the slice branch (lines 74-79): each part is decoded
into a fresh zero element; the first error stops the loop. Gives the new
elements or the error returned, and the decoder calls made. -/
def bindElements {α ρ : Type} (dec : Decoders α ρ) :
    List GoString → GoResult (List α) × List Call
  | [] => (.ok [], [])
  | p :: ps =>
    match dec.BindStringToObject p dec.zero with
    | (_, some e) =>
      (.err ("error setting array element: ".toList ++ e), [Call.BindStringToObject p])
    | (a, none) =>
      match bindElements dec ps with
      | (.ok as, calls) => (.ok (a :: as), Call.BindStringToObject p :: calls)
      | (r, calls) => (r, Call.BindStringToObject p :: calls)

/-- Lines 29-54 of `BindStyledParameter`, the struct branch up to the call of
the JSON decoder: the raw value is split with the object flag on and the parts
are paired into keys and values. An error is the one `BindStyledParameter`
returns. -/
def recordPairs (style : GoString) (explode : Bool) (paramName value : GoString) :
    GoResult (List (GoString × GoString)) :=
  match splitParameter style explode true paramName value with
  | .panic => .panic
  | .err e => .err ("error splitting input '".toList ++ value ++ "' into parts: ".toList ++ e)
  | .ok parts =>
    if explode then explodedPairs paramName parts else unexplodedPairs paramName parts

/-- Lines 55-60 of `BindStyledParameter`: the fields are joined into a JSON
object text, which `json.Unmarshal` decodes into the destination. -/
def unmarshalFields {α ρ : Type} (dec : Decoders α ρ) (paramName : GoString)
    (pairs : List (GoString × GoString)) (r : ρ) : BindOutcome α ρ :=
  match dec.jsonUnmarshal (jsonParam pairs) r with
  | (r', some e) =>
    .returned (.struct r')
      (some ("error binding parameter ".toList ++ paramName ++ " fields: ".toList ++ e))
      [Call.jsonUnmarshal (jsonParam pairs)]
  | (r', none) => .returned (.struct r') none [Call.jsonUnmarshal (jsonParam pairs)]

/-- The function `BindStyledParameter` of `bindparam.go`. -/
def BindStyledParameter {α ρ : Type} (dec : Decoders α ρ) (style : GoString)
    (explode : Bool) (paramName value : GoString) (dest : Dest α ρ) : BindOutcome α ρ :=
  if value = [] then
    .returned dest
      (some ("parameter '".toList ++ paramName ++ "' is empty, can't bind its value".toList)) []
  else
    match dest with
    | .struct r =>
      match recordPairs style explode paramName value with
      | .panic => .panic
      | .err e => .returned dest (some e) []
      | .ok pairs => unmarshalFields dec paramName pairs r
    | .slice xs =>
      match splitParameter style explode false paramName value with
      | .panic => .panic
      | .err e =>
        .returned dest
          (some ("error splitting input '".toList ++ value ++ "' into parts: ".toList ++ e)) []
      | .ok parts =>
        match bindElements dec parts with
        | (.ok newArray, calls) => .returned (.slice newArray) none calls
        | (.err e, calls) => .returned (.slice xs) (some e) calls
        | (.panic, _) => .panic
    | .base a =>
      -- Try to bind the remaining types as a base type.
      match dec.BindStringToObject value a with
      | (a', e) => .returned (.base a') e [Call.BindStringToObject value]

/-- Sample decoders, used to evaluate `BindStyledParameter` on concrete
inputs: a run of decimal digits decodes to its number and anything else is
rejected; the structured decoder stores the text it is given. -/
def sampleDecoders : Decoders Nat GoString where
  BindStringToObject := fun s a =>
    if s ≠ [] ∧ s.all Char.isDigit then (s.foldl (fun n c => 10 * n + (c.toNat - 48)) 0, none)
    else (a, some ("invalid syntax".toList))
  jsonUnmarshal := fun s _ => (s, none)
  zero := 0

/-- The concatenation of a list of texts, in order. -/
def concatAll : List GoString → GoString
  | [] => []
  | a :: rest => a ++ concatAll rest

/-- The pairs `(t[2i], t[2i+1])` for `i < len(t)/2`, in order. -/
def pairsAt (t : List GoString) : List (GoString × GoString) :=
  (List.range (t.length / 2)).map (fun i => (t.getD (2 * i) [], t.getD (2 * i + 1) []))

/-- The text before the first `=` of a token and the text after it. -/
def keyValueOf (tok : GoString) : GoString × GoString :=
  (tok.takeWhile (fun c => c != '='), (tok.dropWhile (fun c => c != '=')).drop 1)

/-- The token `key=value` of an exploded record encoding. -/
def keyValueToken (kv : GoString × GoString) : GoString :=
  kv.1 ++ "=".toList ++ kv.2

/-- The tokens `k1, v1, k2, v2, ...` of a non-exploded record encoding. -/
def keyValueList : List (GoString × GoString) → List GoString
  | [] => []
  | kv :: rest => kv.1 :: kv.2 :: keyValueList rest

/-- The record encodings that do not involve the parameter name's content, as
(style, explode, raw value): simple `k1=v1,k2=v2` and `k1,v1,k2,v2`; label
`.k1=v1.k2=v2` and `.k1,v1,k2,v2`; matrix `;k1=v1;k2=v2` and
`;name=k1,v1,k2,v2`; form exploded `k1=v1&k2=v2`. -/
def recordEncodings (paramName : GoString) (kvs : List (GoString × GoString)) :
    List (GoString × Bool × GoString) :=
  [ ("simple".toList, true, strings.Join (kvs.map keyValueToken) ",".toList),
    ("simple".toList, false, strings.Join (keyValueList kvs) ",".toList),
    ("label".toList, true, concatAll (kvs.map (fun kv => ".".toList ++ keyValueToken kv))),
    ("label".toList, false, ".".toList ++ strings.Join (keyValueList kvs) ",".toList),
    ("matrix".toList, true, concatAll (kvs.map (fun kv => ";".toList ++ keyValueToken kv))),
    ("matrix".toList, false,
      ";".toList ++ paramName ++ "=".toList ++ strings.Join (keyValueList kvs) ",".toList),
    ("form".toList, true, strings.Join (kvs.map keyValueToken) "&".toList) ]

/-- The non-exploded form record encoding `name=k1,v1,k2,v2`. -/
def formRecordEncoding (paramName : GoString) (kvs : List (GoString × GoString)) :
    GoString :=
  paramName ++ "=".toList ++ strings.Join (keyValueList kvs) ",".toList

/-- The non-exploded pairing loop (lines 48-53) with its index arithmetic
spelled out: `i` runs over 0, 2, 4, ... below `len(parts)`, reads `parts[i]`
and `parts[i+1]` and writes `fields[i/2]`; an index out of range is a panic.
It is started with `i = 0` and `fields` the `len(parts)/2` empty texts that
`make` allocates. -/
def pairLoop (parts : List GoString) (i : Nat) (fields : List GoString) :
    GoResult (List GoString) :=
  if i < parts.length then
    match parts[i]?, parts[i + 1]? with
    | some key, some value =>
      if i / 2 < fields.length then
        pairLoop parts (i + 2) (fields.set (i / 2) (jsonField (key, value)))
      else .panic
    | _, _ => .panic
  else .ok fields
termination_by parts.length - i
decreasing_by omega

/-- The text `s` contains the text `t`. -/
def Contains (s t : GoString) : Prop := t <:+: s

/-! ## `splitParameter`, style by style -/

theorem splitParameter_simple (explode object : Bool) (paramName value : GoString) :
    splitParameter "simple".toList explode object paramName value
      = .ok (strings.Split value ',') := by
  unfold splitParameter
  rw [if_pos rfl]

theorem splitParameter_label_explode (object : Bool) (paramName value : GoString) :
    splitParameter "label".toList true object paramName value
      = (match strings.Split value '.' with
        | [] => .panic
        | p0 :: rest =>
          if p0 ≠ [] then
            .err ("invalid format for label parameter '".toList ++ paramName
                    ++ "', should start with '.'".toList)
          else .ok rest) := by
  unfold splitParameter
  rw [if_neg (by decide), if_pos rfl, if_pos rfl]

theorem splitParameter_label_unexplode (object : Bool) (paramName value : GoString) :
    splitParameter "label".toList false object paramName value
      = (match value with
        | [] => .panic
        | c :: rest =>
          if c ≠ '.' then
            .err ("invalid format for label parameter '".toList ++ paramName
                    ++ "', should start with '.'".toList)
          else .ok (strings.Split rest ',')) := by
  unfold splitParameter
  rw [if_neg (by decide), if_pos rfl, if_neg (by decide)]

theorem splitParameter_matrix_explode (object : Bool) (paramName value : GoString) :
    splitParameter "matrix".toList true object paramName value
      = (match strings.Split value ';' with
        | [] => .panic
        | p0 :: rest =>
          if p0 ≠ [] then
            .err ("invalid format for matrix parameter '".toList ++ paramName
                    ++ "', should start with ';'".toList)
          else if !object then .ok (trimEach rest (paramName ++ "=".toList))
          else .ok rest) := by
  unfold splitParameter
  rw [if_neg (by decide), if_neg (by decide), if_pos rfl, if_pos rfl]

theorem splitParameter_matrix_unexplode (object : Bool) (paramName value : GoString) :
    splitParameter "matrix".toList false object paramName value
      = (if !strings.HasPrefix value (";".toList ++ paramName ++ "=".toList) then
          .err ("expected parameter '".toList ++ paramName ++ "' to start with ".toList
                  ++ (";".toList ++ paramName ++ "=".toList))
        else .ok (strings.Split
                    (strings.TrimPrefix value (";".toList ++ paramName ++ "=".toList)) ',')) := by
  unfold splitParameter
  rw [if_neg (by decide), if_neg (by decide), if_pos rfl, if_neg (by decide)]

theorem splitParameter_form_explode (object : Bool) (paramName value : GoString) :
    splitParameter "form".toList true object paramName value
      = (if !object then .ok (trimEach (strings.Split value '&') (paramName ++ "=".toList))
        else .ok (strings.Split value '&')) := by
  unfold splitParameter
  rw [if_neg (by decide), if_neg (by decide), if_neg (by decide), if_pos rfl, if_pos rfl]

theorem splitParameter_form_unexplode (object : Bool) (paramName value : GoString) :
    splitParameter "form".toList false object paramName value
      = .ok (trimEach (strings.Split value ',') (paramName ++ "=".toList)) := by
  unfold splitParameter
  rw [if_neg (by decide), if_neg (by decide), if_neg (by decide), if_pos rfl, if_neg (by decide)]

theorem splitParameter_unknown (style : GoString) (explode object : Bool)
    (paramName value : GoString) (h1 : style ≠ "simple".toList) (h2 : style ≠ "label".toList)
    (h3 : style ≠ "matrix".toList) (h4 : style ≠ "form".toList) :
    splitParameter style explode object paramName value
      = .err ("unhandled parameter style: ".toList ++ style) := by
  unfold splitParameter
  rw [if_neg h1, if_neg h2, if_neg h3, if_neg h4]

/-! ## Facts about `strings.Split`, `strings.Join` and `strings.TrimPrefix` -/

theorem Split_ne_nil (s : GoString) (sep : Char) : strings.Split s sep ≠ [] := by
  induction s with
  | nil => simp [strings.Split]
  | cons c cs ih =>
    unfold strings.Split
    split
    · simp
    · split <;> simp

theorem Split_cons_sep (s : GoString) (sep : Char) :
    strings.Split (sep :: s) sep = [] :: strings.Split s sep := by
  simp [strings.Split]

theorem Split_cons_ne (c : Char) (s : GoString) (sep : Char) (h : c ≠ sep) :
    strings.Split (c :: s) sep
      = ((c :: (strings.Split s sep).headD []) :: (strings.Split s sep).tail) := by
  rw [strings.Split, if_neg h]
  cases hS : strings.Split s sep with
  | nil => exact absurd hS (Split_ne_nil s sep)
  | cons p ps => simp

theorem Split_of_not_mem (s : GoString) (sep : Char) (h : sep ∉ s) :
    strings.Split s sep = [s] := by
  induction s with
  | nil => rfl
  | cons c cs ih =>
    have hc : c ≠ sep := fun e => h (by simp [e])
    have hcs : sep ∉ cs := fun e => h (by simp [e])
    rw [Split_cons_ne c cs sep hc, ih hcs]
    rfl

theorem Split_append_sep (a b : GoString) (sep : Char) (h : sep ∉ a) :
    strings.Split (a ++ sep :: b) sep = a :: strings.Split b sep := by
  induction a with
  | nil => exact Split_cons_sep b sep
  | cons c cs ih =>
    have hc : c ≠ sep := fun e => h (by simp [e])
    have hcs : sep ∉ cs := fun e => h (by simp [e])
    rw [List.cons_append, Split_cons_ne c _ sep hc, ih hcs]
    rfl

theorem Split_Join (vs : List GoString) (sep : Char) (hne : vs ≠ [])
    (h : ∀ v ∈ vs, sep ∉ v) : strings.Split (strings.Join vs [sep]) sep = vs := by
  induction vs with
  | nil => exact absurd rfl hne
  | cons a rest ih =>
    cases rest with
    | nil => exact Split_of_not_mem a sep (h a (by simp))
    | cons b rest2 =>
      have ha : sep ∉ a := h a (by simp)
      have hr : ∀ v ∈ b :: rest2, sep ∉ v := fun v hv => h v (List.mem_cons_of_mem _ hv)
      show strings.Split (a ++ [sep] ++ strings.Join (b :: rest2) [sep]) sep = _
      rw [List.append_assoc, List.singleton_append, Split_append_sep _ _ _ ha,
        ih (by simp) hr]

theorem HasPrefix_append (pfx s : GoString) : strings.HasPrefix (pfx ++ s) pfx = true := by
  unfold strings.HasPrefix
  rw [List.isPrefixOf_iff_prefix]
  exact List.prefix_append pfx s

theorem TrimPrefix_append (pfx s : GoString) : strings.TrimPrefix (pfx ++ s) pfx = s := by
  unfold strings.TrimPrefix
  rw [HasPrefix_append, if_pos rfl, List.drop_left]

theorem HasPrefix_iff (s pfx : GoString) : strings.HasPrefix s pfx = true ↔ pfx <+: s := by
  unfold strings.HasPrefix
  exact List.isPrefixOf_iff_prefix

theorem TrimPrefix_of_not_prefix (s pfx : GoString) (h : ¬ pfx <+: s) :
    strings.TrimPrefix s pfx = s := by
  unfold strings.TrimPrefix
  rw [if_neg]
  rw [HasPrefix_iff]
  exact h

theorem Contains_mid (a b c : GoString) : Contains (a ++ b ++ c) b :=
  ⟨a, c, rfl⟩

theorem Contains_end (a b : GoString) : Contains (a ++ b) b :=
  ⟨a, [], by simp⟩

/-! ## The empty raw value -/

/-- C1 (counterexample): `splitParameter` applied to the empty raw value with
style simple does not return an error: it returns the single empty token. -/
theorem splitParameter_empty_simple_not_error :
    splitParameter "simple".toList false false "id".toList [] = .ok [[]]
    ∧ ¬ ∃ e, splitParameter "simple".toList false false "id".toList [] = .err e := by
  refine ⟨by decide, ?_⟩
  rintro ⟨e, he⟩
  rw [splitParameter_simple] at he
  cases he

/-- C1 (amended): the empty raw value is rejected by `BindStyledParameter`,
which returns the "is empty" error for every style, explode value and
destination without calling a decoder. `splitParameter` itself has no empty
check: on the empty raw value it returns the single empty token for simple and
form, no token for exploded label and exploded matrix, and the missing-prefix
error for non-exploded matrix. -/
theorem splitParameter_empty_value {α ρ : Type} (dec : Decoders α ρ) (style : GoString)
    (explode object : Bool) (paramName : GoString) (dest : Dest α ρ) :
    BindStyledParameter dec style explode paramName [] dest
        = .returned dest
            (some ("parameter '".toList ++ paramName
                    ++ "' is empty, can't bind its value".toList)) []
    ∧ splitParameter "simple".toList explode object paramName [] = .ok [[]]
    ∧ splitParameter "form".toList explode object paramName [] = .ok [[]]
    ∧ splitParameter "label".toList true object paramName [] = .ok []
    ∧ splitParameter "matrix".toList true object paramName [] = .ok []
    ∧ splitParameter "matrix".toList false object paramName []
        = .err ("expected parameter '".toList ++ paramName ++ "' to start with ".toList
                  ++ (";".toList ++ paramName ++ "=".toList)) := by
  refine ⟨by simp [BindStyledParameter], splitParameter_simple _ _ _ _, ?_, ?_, ?_, ?_⟩
  · cases explode
    · rw [splitParameter_form_unexplode]
      simp [strings.Split, trimEach, strings.TrimPrefix]
    · rw [splitParameter_form_explode]
      cases object <;> simp [strings.Split, trimEach, strings.TrimPrefix]
  · rw [splitParameter_label_explode]
    simp [strings.Split]
  · rw [splitParameter_matrix_explode]
    cases object <;> simp [strings.Split, trimEach]
  · rw [splitParameter_matrix_unexplode]
    simp [strings.HasPrefix, List.isPrefixOf]

/-- C2: for every style string, explode value, parameter name and destination,
`BindStyledParameter` on the empty raw value returns the "is empty" error,
whose text contains the parameter name; the destination is left as it was and
no decoder call has been made. The style plays no part, so nothing of the
tokenizer's own errors shows. -/
theorem BindStyledParameter_empty {α ρ : Type} (dec : Decoders α ρ) (style : GoString)
    (explode : Bool) (paramName : GoString) (dest : Dest α ρ) :
    BindStyledParameter dec style explode paramName [] dest
        = .returned dest
            (some ("parameter '".toList ++ paramName
                    ++ "' is empty, can't bind its value".toList)) []
    ∧ Contains ("parameter '".toList ++ paramName
                  ++ "' is empty, can't bind its value".toList) paramName :=
  ⟨by simp [BindStyledParameter], Contains_mid _ _ _⟩

/-! ## Unknown styles -/

/-- C10: for a style string other than "simple", "label", "matrix" and "form",
`splitParameter` returns the "unhandled parameter style" error, whose text
contains the style string, whatever the explode value, object flag, parameter
name and raw value; no tokens are returned. -/
theorem splitParameter_unsupported_style (style : GoString) (explode object : Bool)
    (paramName value : GoString)
    (hstyle : style ∉ ["simple".toList, "label".toList, "matrix".toList, "form".toList]) :
    splitParameter style explode object paramName value
        = .err ("unhandled parameter style: ".toList ++ style)
    ∧ Contains ("unhandled parameter style: ".toList ++ style) style := by
  simp only [List.mem_cons, List.mem_singleton, not_or, List.not_mem_nil, or_false] at hstyle
  exact ⟨splitParameter_unknown style explode object paramName value
    hstyle.1 hstyle.2.1 hstyle.2.2.1 hstyle.2.2.2, Contains_end _ _⟩

/-- C10 (witness): the style "deepObject". -/
theorem splitParameter_unsupported_style_witness :
    "deepObject".toList ∉ ["simple".toList, "label".toList, "matrix".toList, "form".toList]
    ∧ splitParameter "deepObject".toList true false "id".toList "id=5".toList
        = .err ("unhandled parameter style: ".toList ++ "deepObject".toList)
    ∧ Contains ("unhandled parameter style: ".toList ++ "deepObject".toList)
        "deepObject".toList :=
  ⟨by decide, splitParameter_unsupported_style _ _ _ _ _ (by decide)⟩

/-! ## Base (scalar) destinations -/

/-- C3 (the code at the failing input): for a base destination
`BindStyledParameter` hands the raw value to `BindStringToObject` untokenized.
With style matrix and raw value ";id=5" the decoder is given ";id=5", although
`splitParameter` yields the token "5"; the sample integer decoder rejects it,
while it accepts the simple-style "5". An unknown style is not rejected. -/
theorem BindStyledParameter_base_untokenized {α ρ : Type} (dec : Decoders α ρ) (a : α) :
    BindStyledParameter dec "matrix".toList false "id".toList ";id=5".toList (.base a)
        = .returned (.base (dec.BindStringToObject ";id=5".toList a).1)
            (dec.BindStringToObject ";id=5".toList a).2
            [Call.BindStringToObject ";id=5".toList]
    ∧ splitParameter "matrix".toList false false "id".toList ";id=5".toList
        = .ok ["5".toList]
    ∧ BindStyledParameter sampleDecoders "matrix".toList false "id".toList ";id=5".toList
          (.base 0)
        = .returned (.base 0) (some "invalid syntax".toList)
            [Call.BindStringToObject ";id=5".toList]
    ∧ BindStyledParameter sampleDecoders "simple".toList false "id".toList "5".toList
          (.base 0)
        = .returned (.base 5) none [Call.BindStringToObject "5".toList]
    ∧ BindStyledParameter sampleDecoders "deepObject".toList false "id".toList "5".toList
          (.base 0)
        = .returned (.base 5) none [Call.BindStringToObject "5".toList] := by
  refine ⟨?_, by decide, by decide, by decide, by decide⟩
  simp [BindStyledParameter]

/-! ## Tokenizing undoes array serialization -/

theorem Split_append_concat (sep : Char) (q : GoString) (qs : List GoString)
    (hq : sep ∉ q) (hqs : ∀ x ∈ qs, sep ∉ x) :
    strings.Split (q ++ concatAll (qs.map (fun x => sep :: x))) sep = q :: qs := by
  induction qs generalizing q with
  | nil => simpa [concatAll] using Split_of_not_mem q sep hq
  | cons x rest ih =>
    have hx : sep ∉ x := hqs x (by simp)
    have hrest : ∀ y ∈ rest, sep ∉ y := fun y hy => hqs y (List.mem_cons_of_mem _ hy)
    simp only [List.map_cons, concatAll, List.cons_append]
    rw [Split_append_sep _ _ _ hq, ih x hx hrest]

theorem Split_concat (sep : Char) (qs : List GoString) (hqs : ∀ x ∈ qs, sep ∉ x)
    (hne : qs ≠ []) :
    strings.Split (concatAll (qs.map (fun x => sep :: x))) sep = [] :: qs := by
  cases qs with
  | nil => exact absurd rfl hne
  | cons x rest =>
    have hx : sep ∉ x := hqs x (by simp)
    have hrest : ∀ y ∈ rest, sep ∉ y := fun y hy => hqs y (List.mem_cons_of_mem _ hy)
    simp only [List.map_cons, concatAll, List.cons_append]
    rw [Split_cons_sep, Split_append_concat sep x rest hx hrest]

theorem trimEach_map_append (pfx : GoString) (vs : List GoString) :
    trimEach (vs.map (fun v => pfx ++ v)) pfx = vs := by
  induction vs with
  | nil => rfl
  | cons v rest ih =>
    simp only [trimEach, List.map_cons, List.map_map] at ih ⊢
    rw [TrimPrefix_append, ih]

theorem Join_cons_append (a v : GoString) (vs : List GoString) (sep : GoString) :
    a ++ strings.Join (v :: vs) sep = strings.Join ((a ++ v) :: vs) sep := by
  cases vs with
  | nil => rfl
  | cons w rest => simp [strings.Join, List.append_assoc]

/-- C4: tokenizing undoes array serialization. For a parameter name and a
non-empty list of values all free of `,` `.` `;` `&`, `splitParameter` with
the object flag off returns exactly the values, in order, from the simple
encoding (either explode value), the label encodings, the matrix encodings and
the exploded form encoding. -/
theorem splitParameter_array_roundtrip (paramName : GoString) (values : List GoString)
    (hne : values ≠ [])
    (hname : ∀ c ∈ [',', '.', ';', '&'], c ∉ paramName)
    (hvalues : ∀ v ∈ values, ∀ c ∈ [',', '.', ';', '&'], c ∉ v) :
    (∀ explode, splitParameter "simple".toList explode false paramName
        (strings.Join values ",".toList) = .ok values)
    ∧ splitParameter "label".toList false false paramName
        (".".toList ++ strings.Join values ",".toList) = .ok values
    ∧ splitParameter "label".toList true false paramName
        (concatAll (values.map (fun v => ".".toList ++ v))) = .ok values
    ∧ splitParameter "matrix".toList false false paramName
        (";".toList ++ paramName ++ "=".toList ++ strings.Join values ",".toList) = .ok values
    ∧ splitParameter "matrix".toList true false paramName
        (concatAll (values.map (fun v => ";".toList ++ paramName ++ "=".toList ++ v)))
        = .ok values
    ∧ splitParameter "form".toList true false paramName
        (strings.Join (values.map (fun v => paramName ++ "=".toList ++ v)) "&".toList)
        = .ok values := by
  have hcomma : ∀ v ∈ values, ',' ∉ v := fun v hv => hvalues v hv ',' (by simp)
  have hdot : ∀ v ∈ values, '.' ∉ v := fun v hv => hvalues v hv '.' (by simp)
  have hsemi : ∀ v ∈ values, ';' ∉ v := fun v hv => hvalues v hv ';' (by simp)
  have hamp : ∀ v ∈ values, '&' ∉ v := fun v hv => hvalues v hv '&' (by simp)
  have hJ : strings.Split (strings.Join values ",".toList) ',' = values :=
    Split_Join values ',' hne hcomma
  refine ⟨?_, ?_, ?_, ?_, ?_, ?_⟩
  · intro explode
    rw [splitParameter_simple, hJ]
  · have e : ".".toList ++ strings.Join values ",".toList
        = '.' :: strings.Join values ",".toList := rfl
    rw [splitParameter_label_unexplode, e]
    show (if '.' ≠ '.' then _ else GoResult.ok (strings.Split _ ',')) = _
    rw [if_neg (by simp), hJ]
  · rw [splitParameter_label_explode]
    have h := Split_concat '.' values hdot hne
    have e : (fun v : GoString => ".".toList ++ v) = (fun v => '.' :: v) := rfl
    rw [e, h]
    simp
  · rw [splitParameter_matrix_unexplode, HasPrefix_append, TrimPrefix_append, hJ]
    simp
  · rw [splitParameter_matrix_explode]
    have e : (fun v : GoString => ";".toList ++ paramName ++ "=".toList ++ v)
        = (fun v => ';' :: v) ∘ (fun v => (paramName ++ "=".toList) ++ v) := by
      funext v
      simp [List.append_assoc]
    have hq : ∀ x ∈ values.map (fun v => (paramName ++ "=".toList) ++ v), ';' ∉ x := by
      intro x hx
      obtain ⟨v, hv, rfl⟩ := List.mem_map.mp hx
      have h1 : ';' ∉ paramName := hname ';' (by simp)
      have h2 := hsemi v hv
      simp [h1, h2]
    have h := Split_concat ';' _ hq (by simpa using hne)
    rw [e, ← List.map_map, h]
    show (if ([] : GoString) ≠ [] then _
      else if (!false) = true then GoResult.ok (trimEach _ _) else _) = _
    rw [if_neg (by simp), if_pos (show (!false) = true from rfl), trimEach_map_append]
  · rw [splitParameter_form_explode, if_pos (show (!false) = true from rfl)]
    have hq : ∀ x ∈ values.map (fun v => (paramName ++ "=".toList) ++ v), '&' ∉ x := by
      intro x hx
      obtain ⟨v, hv, rfl⟩ := List.mem_map.mp hx
      have h1 : '&' ∉ paramName := hname '&' (by simp)
      have h2 := hamp v hv
      simp [h1, h2]
    have h := Split_Join _ '&' (by simpa using hne) hq
    have e : "&".toList = ['&'] := rfl
    rw [e, h, trimEach_map_append]

/-- C4 (witness): the parameter "id" with the values 3, 4, 5. -/
theorem splitParameter_array_roundtrip_witness :
    (∀ explode, splitParameter "simple".toList explode false "id".toList "3,4,5".toList
        = .ok ["3".toList, "4".toList, "5".toList])
    ∧ splitParameter "label".toList false false "id".toList ".3,4,5".toList
        = .ok ["3".toList, "4".toList, "5".toList]
    ∧ splitParameter "label".toList true false "id".toList ".3.4.5".toList
        = .ok ["3".toList, "4".toList, "5".toList]
    ∧ splitParameter "matrix".toList false false "id".toList ";id=3,4,5".toList
        = .ok ["3".toList, "4".toList, "5".toList]
    ∧ splitParameter "matrix".toList true false "id".toList ";id=3;id=4;id=5".toList
        = .ok ["3".toList, "4".toList, "5".toList]
    ∧ splitParameter "form".toList true false "id".toList "id=3&id=4&id=5".toList
        = .ok ["3".toList, "4".toList, "5".toList] :=
  splitParameter_array_roundtrip "id".toList ["3".toList, "4".toList, "5".toList]
    (by decide) (by decide) (by decide)

/-! ## Form style, not exploded -/

theorem TrimPrefix_eq_self_iff (s pfx : GoString) (hpfx : pfx ≠ []) :
    strings.TrimPrefix s pfx = s ↔ ¬ pfx <+: s := by
  constructor
  · rintro h ⟨r, rfl⟩
    rw [TrimPrefix_append] at h
    have hl := congrArg List.length h
    simp only [List.length_append] at hl
    have : pfx.length = 0 := by omega
    exact hpfx (List.length_eq_zero.mp this)
  · exact TrimPrefix_of_not_prefix s pfx

theorem trimEach_eq_self_iff (vs : List GoString) (pfx : GoString) (hpfx : pfx ≠ []) :
    trimEach vs pfx = vs ↔ ∀ w ∈ vs, ¬ pfx <+: w := by
  induction vs with
  | nil => simp [trimEach]
  | cons v rest ih =>
    simp only [trimEach, List.map_cons, List.cons.injEq, List.mem_cons, forall_eq_or_imp] at ih ⊢
    rw [TrimPrefix_eq_self_iff _ _ hpfx, ih]

/-- C5 (counterexample): parameter "id" and the comma-free values "3" and
"id=4" serialize to "id=3,id=4", from which `splitParameter` returns "3" and
"4": the second value has lost its leading "id=". -/
theorem splitParameter_form_unexplode_roundtrip_fails :
    ',' ∉ "id".toList
    ∧ (∀ v ∈ ["3".toList, "id=4".toList], ',' ∉ v)
    ∧ splitParameter "form".toList false false "id".toList
        ("id".toList ++ "=".toList ++ strings.Join ["3".toList, "id=4".toList] ",".toList)
        = .ok ["3".toList, "4".toList]
    ∧ splitParameter "form".toList false false "id".toList
        ("id".toList ++ "=".toList ++ strings.Join ["3".toList, "id=4".toList] ",".toList)
        ≠ .ok ["3".toList, "id=4".toList] := by
  decide

/-- C5 (amended): for a parameter name without `,` and a non-empty list of
values without `,`, `splitParameter` on the non-exploded form encoding
`paramName=v1,v2,...` returns the first value followed by every later value
with one leading `paramName=` removed; so it returns exactly the values, in
order, if and only if no value after the first begins with `paramName=`. -/
theorem splitParameter_form_unexplode_roundtrip (paramName v : GoString)
    (vs : List GoString) (hname : ',' ∉ paramName) (hv : ',' ∉ v)
    (hvs : ∀ w ∈ vs, ',' ∉ w) :
    splitParameter "form".toList false false paramName
        (paramName ++ "=".toList ++ strings.Join (v :: vs) ",".toList)
      = .ok (v :: trimEach vs (paramName ++ "=".toList))
    ∧ (splitParameter "form".toList false false paramName
          (paramName ++ "=".toList ++ strings.Join (v :: vs) ",".toList) = .ok (v :: vs)
        ↔ ∀ w ∈ vs, ¬ (paramName ++ "=".toList) <+: w) := by
  have hfirst : ',' ∉ paramName ++ "=".toList ++ v := by
    simp [hname, hv]
  have hall : ∀ x ∈ (paramName ++ "=".toList ++ v) :: vs, ',' ∉ x := by
    intro x hx
    rcases List.mem_cons.mp hx with rfl | hx
    · exact hfirst
    · exact hvs x hx
  have hsplit : splitParameter "form".toList false false paramName
      (paramName ++ "=".toList ++ strings.Join (v :: vs) ",".toList)
      = .ok (v :: trimEach vs (paramName ++ "=".toList)) := by
    rw [splitParameter_form_unexplode, Join_cons_append]
    have e : ",".toList = [','] := rfl
    rw [e, Split_Join _ ',' (by simp) hall]
    simp only [trimEach, List.map_cons]
    rw [TrimPrefix_append]
  refine ⟨hsplit, ?_⟩
  rw [hsplit]
  have hpfx : paramName ++ "=".toList ≠ [] := by simp
  simp only [GoResult.ok.injEq, List.cons.injEq, true_and]
  exact trimEach_eq_self_iff vs _ hpfx

/-- C5 (witness): parameter "id", raw value "id=3,4,5". -/
theorem splitParameter_form_unexplode_roundtrip_witness :
    splitParameter "form".toList false false "id".toList "id=3,4,5".toList
      = .ok ["3".toList, "4".toList, "5".toList]
    ∧ (splitParameter "form".toList false false "id".toList "id=3,4,5".toList
          = .ok ["3".toList, "4".toList, "5".toList]
        ↔ ∀ w ∈ ["4".toList, "5".toList], ¬ ("id".toList ++ "=".toList) <+: w) :=
  splitParameter_form_unexplode_roundtrip "id".toList "3".toList ["4".toList, "5".toList]
    (by decide) (by decide) (by decide)

/-! ## Slice destinations -/

theorem bindElements_all_ok {α ρ : Type} (dec : Decoders α ρ) (t : List GoString)
    (hdec : ∀ p ∈ t, (dec.BindStringToObject p dec.zero).2 = none) :
    bindElements dec t
      = (.ok (t.map (fun p => (dec.BindStringToObject p dec.zero).1)),
          t.map Call.BindStringToObject) := by
  induction t with
  | nil => rfl
  | cons p ps ih =>
    have hp : (dec.BindStringToObject p dec.zero).2 = none := hdec p (by simp)
    have hps := ih (fun q hq => hdec q (List.mem_cons_of_mem _ hq))
    cases hres : dec.BindStringToObject p dec.zero with
    | mk a e =>
      rw [hres] at hp
      simp only at hp
      subst hp
      simp only [bindElements, hres, hps, List.map_cons]

/-- C7: for a slice destination and a non-empty raw value whose tokens `t`
(from `splitParameter` with the object flag off) all decode without error,
`BindStyledParameter` returns no error and leaves in the destination exactly
one element per token, the i-th being what `BindStringToObject` decodes from
`t[i]` into a zero element; the decoder is called once per token, in order. -/
theorem BindStyledParameter_slice_ok {α ρ : Type} (dec : Decoders α ρ) (style : GoString)
    (explode : Bool) (paramName value : GoString) (xs : List α) (t : List GoString)
    (hvalue : value ≠ [])
    (hsplit : splitParameter style explode false paramName value = .ok t)
    (hdec : ∀ p ∈ t, (dec.BindStringToObject p dec.zero).2 = none) :
    BindStyledParameter dec style explode paramName value (.slice xs)
        = .returned (.slice (t.map (fun p => (dec.BindStringToObject p dec.zero).1))) none
            (t.map Call.BindStringToObject)
    ∧ (t.map (fun p => (dec.BindStringToObject p dec.zero).1)).length = t.length
    ∧ ∀ i (hi : i < t.length),
        (t.map (fun p => (dec.BindStringToObject p dec.zero).1))[i]?
          = some (dec.BindStringToObject (t.get ⟨i, hi⟩) dec.zero).1 := by
  refine ⟨?_, by simp, ?_⟩
  · unfold BindStyledParameter
    rw [if_neg hvalue]
    simp only [hsplit, bindElements_all_ok dec t hdec]
  · intro i hi
    simp [List.getElem?_map, List.getElem?_eq_getElem hi]

/-- C7 (witness): ";id=3;id=4;id=5" bound matrix-exploded into a slice of
numbers that held 9 gives 3, 4, 5. -/
theorem BindStyledParameter_slice_ok_witness :
    BindStyledParameter sampleDecoders "matrix".toList true "id".toList
        ";id=3;id=4;id=5".toList (.slice [9])
      = .returned (.slice [3, 4, 5]) none
          [Call.BindStringToObject "3".toList, Call.BindStringToObject "4".toList,
            Call.BindStringToObject "5".toList] :=
  (BindStyledParameter_slice_ok sampleDecoders "matrix".toList true "id".toList
    ";id=3;id=4;id=5".toList [9] ["3".toList, "4".toList, "5".toList]
    (by decide) (by decide) (by decide)).1

/-! ## Struct destinations: pairing the parts -/

theorem pairsAt_cons_cons (k v : GoString) (rest : List GoString) :
    pairsAt (k :: v :: rest) = (k, v) :: pairsAt rest := by
  unfold pairsAt
  have hlen : (k :: v :: rest).length / 2 = rest.length / 2 + 1 := by
    simp only [List.length_cons]
    omega
  rw [hlen, List.range_succ_eq_map, List.map_cons, List.map_map]
  refine congrArg₂ _ rfl ?_
  apply List.map_congr_left
  intro i _
  have h1 : 2 * (i + 1) = 2 * i + 1 + 1 := by omega
  simp [Function.comp, h1]

theorem pairUp_of_even (n : Nat) (t : List GoString) (hlen : t.length = 2 * n) :
    pairUp t = .ok (pairsAt t) := by
  induction n generalizing t with
  | zero =>
    have : t = [] := List.length_eq_zero.mp (by simpa using hlen)
    subst this
    rfl
  | succ m ih =>
    match t, hlen with
    | k :: v :: rest, hlen =>
      have hrest : rest.length = 2 * m := by
        simp only [List.length_cons] at hlen
        omega
      rw [pairUp, ih rest hrest, pairsAt_cons_cons]

theorem length_pairsAt (t : List GoString) : (pairsAt t).length = t.length / 2 := by
  simp [pairsAt]

theorem BindStyledParameter_struct {α ρ : Type} (dec : Decoders α ρ) (style : GoString)
    (explode : Bool) (paramName value : GoString) (r : ρ) (hvalue : value ≠ []) :
    BindStyledParameter dec style explode paramName value (.struct r)
      = (match recordPairs style explode paramName value with
        | .panic => .panic
        | .err e => .returned (.struct r) (some e) []
        | .ok pairs => unmarshalFields dec paramName pairs r) := by
  unfold BindStyledParameter
  rw [if_neg hvalue]

theorem unmarshalFields_calls {α ρ : Type} (dec : Decoders α ρ) (paramName : GoString)
    (pairs : List (GoString × GoString)) (r : ρ) :
    ∃ d e, unmarshalFields dec paramName pairs r
      = .returned d e [Call.jsonUnmarshal (jsonParam pairs)] := by
  unfold unmarshalFields
  rcases hres : dec.jsonUnmarshal (jsonParam pairs) r with ⟨r', _ | e⟩
  · exact ⟨_, _, rfl⟩
  · exact ⟨_, _, rfl⟩

/-- C8: for a struct destination with explode = false and a non-empty raw
value that `splitParameter` (object flag on) splits into the tokens `t`: when
`len(t)` is odd, `BindStyledParameter` returns the "property/values need to be
pairs" error, the destination unchanged and no decoder called; when `len(t)`
is even, the pairing gives exactly `len(t)/2` pairs, the i-th being
`(t[2i], t[2i+1])`, and these are what is handed to the JSON decoder. -/
theorem BindStyledParameter_struct_unexploded {α ρ : Type} (dec : Decoders α ρ)
    (style paramName value : GoString) (r : ρ) (t : List GoString)
    (hvalue : value ≠ [])
    (hsplit : splitParameter style false true paramName value = .ok t) :
    (t.length % 2 = 1 →
      BindStyledParameter dec style false paramName value (.struct r)
        = .returned (.struct r)
            (some ("parameter '".toList ++ paramName
              ++ "' has invalid format, property/values need to be pairs".toList)) [])
    ∧ (t.length % 2 = 0 →
      recordPairs style false paramName value = .ok (pairsAt t)
      ∧ (pairsAt t).length = t.length / 2
      ∧ (∀ i, i < t.length / 2 →
          (pairsAt t)[i]? = some (t.getD (2 * i) [], t.getD (2 * i + 1) [])
          ∧ 2 * i + 1 < t.length)
      ∧ BindStyledParameter dec style false paramName value (.struct r)
          = unmarshalFields dec paramName (pairsAt t) r) := by
  have hrec : recordPairs style false paramName value = unexplodedPairs paramName t := by
    unfold recordPairs
    rw [hsplit]
    rfl
  constructor
  · intro hodd
    rw [BindStyledParameter_struct dec style false paramName value r hvalue, hrec]
    unfold unexplodedPairs
    rw [if_pos (by omega)]
  · intro heven
    have hpairs : recordPairs style false paramName value = .ok (pairsAt t) := by
      rw [hrec]
      unfold unexplodedPairs
      rw [if_neg (by omega)]
      exact pairUp_of_even (t.length / 2) t (by omega)
    refine ⟨hpairs, length_pairsAt t, ?_, ?_⟩
    · intro i hi
      refine ⟨?_, by omega⟩
      unfold pairsAt
      rw [List.getElem?_map, List.getElem?_range hi]
      rfl
    · rw [BindStyledParameter_struct dec style false paramName value r hvalue, hpairs]

/-- C8 (witness): label style, ".role,admin,firstName,Alex" has four tokens
and pairs up; ".role,admin,firstName" has three and is refused. -/
theorem BindStyledParameter_struct_unexploded_witness :
    (recordPairs "label".toList false "id".toList ".role,admin,firstName,Alex".toList
        = .ok [("role".toList, "admin".toList), ("firstName".toList, "Alex".toList)])
    ∧ BindStyledParameter sampleDecoders "label".toList false "id".toList
        ".role,admin,firstName".toList (.struct [])
        = .returned (.struct [])
            (some ("parameter '".toList ++ "id".toList
              ++ "' has invalid format, property/values need to be pairs".toList)) [] :=
  ⟨((BindStyledParameter_struct_unexploded sampleDecoders "label".toList "id".toList
      ".role,admin,firstName,Alex".toList []
      ["role".toList, "admin".toList, "firstName".toList, "Alex".toList]
      (by decide) (by decide)).2 (by decide)).1,
   (BindStyledParameter_struct_unexploded sampleDecoders "label".toList "id".toList
      ".role,admin,firstName".toList []
      ["role".toList, "admin".toList, "firstName".toList]
      (by decide) (by decide)).1 (by decide)⟩

/-! ## Struct destinations: exploded key=value tokens -/

theorem length_Split (s : GoString) (sep : Char) :
    (strings.Split s sep).length = s.count sep + 1 := by
  induction s with
  | nil => rfl
  | cons c cs ih =>
    by_cases hc : c = sep
    · subst hc
      rw [Split_cons_sep]
      simp [ih]
    · rw [Split_cons_ne c cs sep hc, List.count_cons_of_ne (Ne.symm hc)]
      cases hS : strings.Split cs sep with
      | nil => exact absurd hS (Split_ne_nil cs sep)
      | cons q qs =>
        rw [hS] at ih
        simpa using ih

theorem Split_of_count_one (s : GoString) (sep : Char) (h : s.count sep = 1) :
    strings.Split s sep
        = [s.takeWhile (fun c => c != sep), (s.dropWhile (fun c => c != sep)).drop 1]
    ∧ s = s.takeWhile (fun c => c != sep) ++ sep
          :: (s.dropWhile (fun c => c != sep)).drop 1 := by
  induction s with
  | nil => simp at h
  | cons c cs ih =>
    by_cases hc : c = sep
    · subst hc
      have hcs : c ∉ cs := by
        rw [List.count_cons_self] at h
        exact List.count_eq_zero.mp (by omega)
      rw [Split_cons_sep, Split_of_not_mem cs c hcs]
      simp
    · rw [List.count_cons_of_ne (Ne.symm hc)] at h
      obtain ⟨h1, h2⟩ := ih h
      rw [Split_cons_ne c cs sep hc, h1]
      have hb : (c != sep) = true := by simpa using hc
      simp only [List.takeWhile_cons, List.dropWhile_cons, hb, if_true, List.headD_cons,
        List.tail_cons, List.cons_append, true_and]
      exact congrArg _ h2

theorem explodedPairs_ok (paramName : GoString) (t : List GoString)
    (h : ∀ tok ∈ t, tok.count '=' = 1) :
    explodedPairs paramName t = .ok (t.map keyValueOf) := by
  induction t with
  | nil => rfl
  | cons tok rest ih =>
    have h1 := (Split_of_count_one tok '=' (h tok (by simp))).1
    have h2 := ih (fun x hx => h x (List.mem_cons_of_mem _ hx))
    simp only [explodedPairs, h1, h2, List.map_cons, keyValueOf]

theorem explodedPairs_err (paramName : GoString) (t : List GoString)
    (h : ∃ tok ∈ t, tok.count '=' ≠ 1) :
    explodedPairs paramName t
      = .err ("parameter '".toList ++ paramName ++ "' has invalid exploded format".toList) := by
  induction t with
  | nil => simp at h
  | cons tok rest ih =>
    by_cases htok : tok.count '=' = 1
    · have hrest : ∃ x ∈ rest, x.count '=' ≠ 1 := by
        obtain ⟨x, hx, hne⟩ := h
        rcases List.mem_cons.mp hx with rfl | hx
        · exact absurd htok hne
        · exact ⟨x, hx, hne⟩
      have h1 := (Split_of_count_one tok '=' htok).1
      simp only [explodedPairs, h1, ih hrest]
    · unfold explodedPairs
      split
      · rename_i k v heq
        have hl := length_Split tok '='
        rw [heq] at hl
        simp only [List.length_cons, List.length_nil] at hl
        omega
      · rfl

/-- C9: for a struct destination with explode = true and a non-empty raw
value that `splitParameter` (object flag on) splits into the tokens `t`,
`BindStyledParameter` returns the "invalid exploded format" error, leaving the
destination unchanged and calling no decoder, if and only if some token does
not contain exactly one `=`. Otherwise every token is the key, `=`, the value;
the pairs are the (key, value) of each token, in token order, and they are
what is handed to the JSON decoder. -/
theorem BindStyledParameter_struct_exploded {α ρ : Type} (dec : Decoders α ρ)
    (style paramName value : GoString) (r : ρ) (t : List GoString)
    (hvalue : value ≠ [])
    (hsplit : splitParameter style true true paramName value = .ok t) :
    (BindStyledParameter dec style true paramName value (.struct r)
        = .returned (.struct r)
            (some ("parameter '".toList ++ paramName
              ++ "' has invalid exploded format".toList)) []
      ↔ ∃ tok ∈ t, tok.count '=' ≠ 1)
    ∧ ((∀ tok ∈ t, tok.count '=' = 1) →
      recordPairs style true paramName value = .ok (t.map keyValueOf)
      ∧ (∀ tok ∈ t, tok = (keyValueOf tok).1 ++ "=".toList ++ (keyValueOf tok).2)
      ∧ BindStyledParameter dec style true paramName value (.struct r)
          = unmarshalFields dec paramName (t.map keyValueOf) r) := by
  have hrec : recordPairs style true paramName value = explodedPairs paramName t := by
    unfold recordPairs
    rw [hsplit]
    rfl
  have hgood : (∀ tok ∈ t, tok.count '=' = 1) →
      BindStyledParameter dec style true paramName value (.struct r)
        = unmarshalFields dec paramName (t.map keyValueOf) r := by
    intro hall
    rw [BindStyledParameter_struct dec style true paramName value r hvalue, hrec,
      explodedPairs_ok paramName t hall]
  constructor
  · constructor
    · intro hret
      by_contra hnone
      have hall : ∀ tok ∈ t, tok.count '=' = 1 := by
        intro tok htok
        by_contra hne
        exact hnone ⟨tok, htok, hne⟩
      rw [hgood hall] at hret
      obtain ⟨d, e, hcalls⟩ := unmarshalFields_calls dec paramName (t.map keyValueOf) r
      rw [hcalls] at hret
      simp at hret
    · intro hbad
      rw [BindStyledParameter_struct dec style true paramName value r hvalue, hrec,
        explodedPairs_err paramName t hbad]
  · intro hall
    refine ⟨by rw [hrec, explodedPairs_ok paramName t hall], ?_, hgood hall⟩
    intro tok htok
    have h2 := (Split_of_count_one tok '=' (hall tok htok)).2
    simpa [keyValueOf] using h2

/-- C9 (witness): ".role=admin.firstName=Alex" in label style gives the pairs
(role, admin) and (firstName, Alex); ".role=admin.firstName" is refused. -/
theorem BindStyledParameter_struct_exploded_witness :
    recordPairs "label".toList true "id".toList ".role=admin.firstName=Alex".toList
        = .ok [("role".toList, "admin".toList), ("firstName".toList, "Alex".toList)]
    ∧ BindStyledParameter sampleDecoders "label".toList true "id".toList
        ".role=admin.firstName".toList (.struct [])
        = .returned (.struct [])
            (some ("parameter '".toList ++ "id".toList
              ++ "' has invalid exploded format".toList)) [] :=
  ⟨((BindStyledParameter_struct_exploded sampleDecoders "label".toList "id".toList
      ".role=admin.firstName=Alex".toList []
      ["role=admin".toList, "firstName=Alex".toList]
      (by decide) (by decide)).2 (by decide)).1,
   (BindStyledParameter_struct_exploded sampleDecoders "label".toList "id".toList
      ".role=admin.firstName".toList []
      ["role=admin".toList, "firstName".toList]
      (by decide) (by decide)).1.mpr ⟨"firstName".toList, by decide, by decide⟩⟩

/-! ## Exploded and non-exploded record encodings -/

theorem Split_keyValueToken (kv : GoString × GoString) (h1 : '=' ∉ kv.1) (h2 : '=' ∉ kv.2) :
    strings.Split (keyValueToken kv) '=' = [kv.1, kv.2] := by
  have e : keyValueToken kv = kv.1 ++ '=' :: kv.2 := by
    simp [keyValueToken]
  rw [e, Split_append_sep _ _ _ h1, Split_of_not_mem _ _ h2]

theorem explodedPairs_tokens (paramName : GoString) (kvs : List (GoString × GoString))
    (h : ∀ kv ∈ kvs, '=' ∉ kv.1 ∧ '=' ∉ kv.2) :
    explodedPairs paramName (kvs.map keyValueToken) = .ok kvs := by
  induction kvs with
  | nil => rfl
  | cons kv rest ih =>
    have hkv := h kv (by simp)
    have hrest := ih (fun x hx => h x (List.mem_cons_of_mem _ hx))
    simp only [List.map_cons, explodedPairs, Split_keyValueToken kv hkv.1 hkv.2, hrest]

theorem length_keyValueList (kvs : List (GoString × GoString)) :
    (keyValueList kvs).length = 2 * kvs.length := by
  induction kvs with
  | nil => rfl
  | cons kv rest ih =>
    simp only [keyValueList, List.length_cons, ih]
    omega

theorem pairUp_keyValueList (kvs : List (GoString × GoString)) :
    pairUp (keyValueList kvs) = .ok kvs := by
  induction kvs with
  | nil => rfl
  | cons kv rest ih => simp only [keyValueList, pairUp, ih]

theorem unexplodedPairs_keyValueList (paramName : GoString)
    (kvs : List (GoString × GoString)) :
    unexplodedPairs paramName (keyValueList kvs) = .ok kvs := by
  unfold unexplodedPairs
  rw [if_neg (by rw [length_keyValueList]; omega), pairUp_keyValueList]

theorem mem_keyValueList (kvs : List (GoString × GoString)) (x : GoString)
    (hx : x ∈ keyValueList kvs) : ∃ kv ∈ kvs, x = kv.1 ∨ x = kv.2 := by
  induction kvs with
  | nil => simp [keyValueList] at hx
  | cons kv rest ih =>
    simp only [keyValueList, List.mem_cons] at hx
    rcases hx with rfl | rfl | hx
    · exact ⟨kv, by simp, Or.inl rfl⟩
    · exact ⟨kv, by simp, Or.inr rfl⟩
    · obtain ⟨kv2, hkv2, h⟩ := ih hx
      exact ⟨kv2, List.mem_cons_of_mem _ hkv2, h⟩

theorem keyValueList_ne_nil (kvs : List (GoString × GoString)) (hne : kvs ≠ []) :
    keyValueList kvs ≠ [] := by
  cases kvs with
  | nil => exact absurd rfl hne
  | cons kv rest => simp [keyValueList]

theorem recordPairs_of_split (style : GoString) (explode : Bool)
    (paramName value : GoString) (t : List GoString)
    (h : splitParameter style explode true paramName value = .ok t) :
    recordPairs style explode paramName value
      = (if explode then explodedPairs paramName t else unexplodedPairs paramName t) := by
  unfold recordPairs
  rw [h]

theorem recordPairs_nil (style : GoString) (explode : Bool) (paramName : GoString)
    (ps : List (GoString × GoString))
    (h : recordPairs style explode paramName [] = .ok ps) : ps = [] := by
  by_cases h1 : style = "simple".toList
  · subst h1
    rw [recordPairs_of_split _ _ _ _ _ (splitParameter_simple _ _ _ _)] at h
    cases explode <;> simp [strings.Split, explodedPairs, unexplodedPairs] at h
  by_cases h2 : style = "label".toList
  · subst h2
    unfold recordPairs at h
    cases explode
    · rw [splitParameter_label_unexplode] at h
      simp at h
    · rw [splitParameter_label_explode] at h
      simp [strings.Split, explodedPairs] at h
      exact h
  by_cases h3 : style = "matrix".toList
  · subst h3
    unfold recordPairs at h
    cases explode
    · rw [splitParameter_matrix_unexplode] at h
      simp [strings.HasPrefix, List.isPrefixOf] at h
    · rw [splitParameter_matrix_explode] at h
      simp [strings.Split, explodedPairs] at h
      exact h
  by_cases h4 : style = "form".toList
  · subst h4
    unfold recordPairs at h
    cases explode
    · rw [splitParameter_form_unexplode] at h
      simp [strings.Split, trimEach, strings.TrimPrefix, unexplodedPairs] at h
    · rw [splitParameter_form_explode] at h
      simp [strings.Split, explodedPairs] at h
  · unfold recordPairs at h
    rw [splitParameter_unknown style explode true paramName [] h1 h2 h3 h4] at h
    simp at h

theorem BindStyledParameter_of_recordPairs {α ρ : Type} (dec : Decoders α ρ)
    (style : GoString) (explode : Bool) (paramName value : GoString) (r : ρ)
    (kvs : List (GoString × GoString)) (hne : kvs ≠ [])
    (h : recordPairs style explode paramName value = .ok kvs) :
    BindStyledParameter dec style explode paramName value (.struct r)
      = unmarshalFields dec paramName kvs r := by
  have hvalue : value ≠ [] := by
    rintro rfl
    exact hne (recordPairs_nil style explode paramName kvs h)
  rw [BindStyledParameter_struct dec style explode paramName value r hvalue, h]

theorem recordPairs_exploded (style paramName value : GoString)
    (kvs : List (GoString × GoString)) (heq : ∀ kv ∈ kvs, '=' ∉ kv.1 ∧ '=' ∉ kv.2)
    (h : splitParameter style true true paramName value = .ok (kvs.map keyValueToken)) :
    recordPairs style true paramName value = .ok kvs := by
  rw [recordPairs_of_split _ _ _ _ _ h, if_pos rfl, explodedPairs_tokens paramName kvs heq]

theorem recordPairs_unexploded (style paramName value : GoString)
    (kvs : List (GoString × GoString))
    (h : splitParameter style false true paramName value = .ok (keyValueList kvs)) :
    recordPairs style false paramName value = .ok kvs := by
  rw [recordPairs_of_split _ _ _ _ _ h, if_neg (by simp), unexplodedPairs_keyValueList]

theorem not_mem_keyValueToken (c : Char) (hc : c ≠ '=') (kvs : List (GoString × GoString))
    (h : ∀ kv ∈ kvs, c ∉ kv.1 ∧ c ∉ kv.2) :
    ∀ x ∈ kvs.map keyValueToken, c ∉ x := by
  intro x hx
  obtain ⟨kv, hkv, rfl⟩ := List.mem_map.mp hx
  have h1 := h kv hkv
  simp [keyValueToken, h1.1, h1.2, hc]

theorem not_mem_keyValueList (c : Char) (kvs : List (GoString × GoString))
    (h : ∀ kv ∈ kvs, c ∉ kv.1 ∧ c ∉ kv.2) :
    ∀ x ∈ keyValueList kvs, c ∉ x := by
  intro x hx
  obtain ⟨kv, hkv, hx2⟩ := mem_keyValueList kvs x hx
  rcases hx2 with rfl | rfl
  · exact (h kv hkv).1
  · exact (h kv hkv).2

theorem split_form_unexploded_record (paramName : GoString)
    (kvs : List (GoString × GoString)) (hne : kvs ≠ []) (hname : ',' ∉ paramName)
    (hcomma : ∀ kv ∈ kvs, ',' ∉ kv.1 ∧ ',' ∉ kv.2)
    (heq : ∀ kv ∈ kvs, '=' ∉ kv.1 ∧ '=' ∉ kv.2) :
    splitParameter "form".toList false true paramName (formRecordEncoding paramName kvs)
      = .ok (keyValueList kvs) := by
  cases kvs with
  | nil => exact absurd rfl hne
  | cons kv rest =>
    have hl := not_mem_keyValueList ',' (kv :: rest) hcomma
    have hq := not_mem_keyValueList '=' (kv :: rest) heq
    simp only [keyValueList] at hl hq ⊢
    have hfirst : ',' ∉ paramName ++ "=".toList ++ kv.1 := by
      have := hl kv.1 (by simp)
      simp [hname, this]
    have hall : ∀ x ∈ (paramName ++ "=".toList ++ kv.1) :: kv.2 :: keyValueList rest,
        ',' ∉ x := by
      intro x hx
      rcases List.mem_cons.mp hx with rfl | hx
      · exact hfirst
      · exact hl x (List.mem_cons_of_mem _ hx)
    have hkeep : trimEach (kv.2 :: keyValueList rest) (paramName ++ "=".toList)
        = kv.2 :: keyValueList rest := by
      rw [trimEach_eq_self_iff _ _ (by simp)]
      rintro w hw ⟨u, rfl⟩
      exact hq _ (List.mem_cons_of_mem _ hw) (by simp)
    have e : ",".toList = [','] := rfl
    rw [splitParameter_form_unexplode, formRecordEncoding]
    simp only [keyValueList]
    rw [Join_cons_append, e, Split_Join _ ',' (by simp) hall]
    show GoResult.ok (strings.TrimPrefix _ _ :: trimEach (kv.2 :: keyValueList rest) _) = _
    rw [TrimPrefix_append, hkeep]

/-- C6 (counterexample): with the parameter name "a,b" and the single pair
(k, v), the exploded form encoding "k=v" gives the pair, but the non-exploded
form encoding "a,b=k,v" splits into three parts and is refused. -/
theorem record_form_encodings_disagree :
    recordPairs "form".toList true "a,b".toList
        (strings.Join ([("k".toList, "v".toList)].map keyValueToken) "&".toList)
      = .ok [("k".toList, "v".toList)]
    ∧ recordPairs "form".toList false "a,b".toList
        (formRecordEncoding "a,b".toList [("k".toList, "v".toList)])
      = .err ("parameter '".toList ++ "a,b".toList
          ++ "' has invalid format, property/values need to be pairs".toList)
    ∧ BindStyledParameter sampleDecoders "form".toList false "a,b".toList
        (formRecordEncoding "a,b".toList [("k".toList, "v".toList)]) (.struct [])
      = .returned (.struct [])
          (some ("parameter '".toList ++ "a,b".toList
            ++ "' has invalid format, property/values need to be pairs".toList)) [] := by
  decide

/-- C6 (amended): exploded and non-exploded record encodings give the same
pairs. For a non-empty list of pairs whose keys and values are free of
`,` `.` `;` `&` `=` `"`, the struct branch of `BindStyledParameter` pairs the
parts of each encoding (simple, label and matrix in both forms, form
exploded, for every parameter name; form non-exploded for a parameter name
without `,`) into exactly the original pairs, in order, and hands their JSON
text to the decoder. -/
theorem record_encodings_agree {α ρ : Type} (dec : Decoders α ρ) (paramName : GoString)
    (kvs : List (GoString × GoString)) (r : ρ) (hne : kvs ≠ [])
    (hkv : ∀ kv ∈ kvs, ∀ c ∈ [',', '.', ';', '&', '=', '"'], c ∉ kv.1 ∧ c ∉ kv.2) :
    (∀ enc ∈ recordEncodings paramName kvs,
      recordPairs enc.1 enc.2.1 paramName enc.2.2 = .ok kvs
      ∧ BindStyledParameter dec enc.1 enc.2.1 paramName enc.2.2 (.struct r)
          = unmarshalFields dec paramName kvs r)
    ∧ (',' ∉ paramName →
      recordPairs "form".toList false paramName (formRecordEncoding paramName kvs) = .ok kvs
      ∧ BindStyledParameter dec "form".toList false paramName
            (formRecordEncoding paramName kvs) (.struct r)
          = unmarshalFields dec paramName kvs r) := by
  have hcomma : ∀ kv ∈ kvs, ',' ∉ kv.1 ∧ ',' ∉ kv.2 := fun kv h => hkv kv h ',' (by simp)
  have hdot : ∀ kv ∈ kvs, '.' ∉ kv.1 ∧ '.' ∉ kv.2 := fun kv h => hkv kv h '.' (by simp)
  have hsemi : ∀ kv ∈ kvs, ';' ∉ kv.1 ∧ ';' ∉ kv.2 := fun kv h => hkv kv h ';' (by simp)
  have hamp : ∀ kv ∈ kvs, '&' ∉ kv.1 ∧ '&' ∉ kv.2 := fun kv h => hkv kv h '&' (by simp)
  have heq : ∀ kv ∈ kvs, '=' ∉ kv.1 ∧ '=' ∉ kv.2 := fun kv h => hkv kv h '=' (by simp)
  have htne : kvs.map keyValueToken ≠ [] := by simpa using hne
  have hlne : keyValueList kvs ≠ [] := keyValueList_ne_nil kvs hne
  have hJ : strings.Split (strings.Join (keyValueList kvs) ",".toList) ','
      = keyValueList kvs :=
    Split_Join _ ',' hlne (not_mem_keyValueList ',' kvs hcomma)
  have key : ∀ (style : GoString) (explode : Bool) (value : GoString),
      recordPairs style explode paramName value = .ok kvs →
      recordPairs style explode paramName value = .ok kvs
      ∧ BindStyledParameter dec style explode paramName value (.struct r)
          = unmarshalFields dec paramName kvs r :=
    fun style explode value h =>
      ⟨h, BindStyledParameter_of_recordPairs dec style explode paramName value r kvs hne h⟩
  constructor
  · intro enc henc
    simp only [recordEncodings, List.mem_cons, List.mem_singleton, List.not_mem_nil,
      or_false] at henc
    rcases henc with rfl | rfl | rfl | rfl | rfl | rfl | rfl
    · -- simple, exploded
      apply key
      apply recordPairs_exploded _ _ _ _ heq
      rw [splitParameter_simple]
      exact congrArg _ (Split_Join _ ',' htne
        (not_mem_keyValueToken ',' (by decide) kvs hcomma))
    · -- simple, not exploded
      apply key
      apply recordPairs_unexploded
      rw [splitParameter_simple]
      exact congrArg _ hJ
    · -- label, exploded
      apply key
      apply recordPairs_exploded _ _ _ _ heq
      have e : kvs.map (fun kv => ".".toList ++ keyValueToken kv)
          = (kvs.map keyValueToken).map (fun x => '.' :: x) := by
        rw [List.map_map]
        rfl
      show splitParameter "label".toList true true paramName
        (concatAll (kvs.map (fun kv => ".".toList ++ keyValueToken kv))) = _
      rw [splitParameter_label_explode, e,
        Split_concat '.' _ (not_mem_keyValueToken '.' (by decide) kvs hdot) htne]
      show (if ([] : GoString) ≠ [] then _ else GoResult.ok _) = _
      rw [if_neg (by simp)]
    · -- label, not exploded
      apply key
      apply recordPairs_unexploded
      show splitParameter "label".toList false true paramName
        ('.' :: strings.Join (keyValueList kvs) ",".toList) = _
      rw [splitParameter_label_unexplode]
      show (if '.' ≠ '.' then _ else GoResult.ok (strings.Split _ ',')) = _
      rw [if_neg (by simp), hJ]
    · -- matrix, exploded
      apply key
      apply recordPairs_exploded _ _ _ _ heq
      have e : kvs.map (fun kv => ";".toList ++ keyValueToken kv)
          = (kvs.map keyValueToken).map (fun x => ';' :: x) := by
        rw [List.map_map]
        rfl
      show splitParameter "matrix".toList true true paramName
        (concatAll (kvs.map (fun kv => ";".toList ++ keyValueToken kv))) = _
      rw [splitParameter_matrix_explode, e,
        Split_concat ';' _ (not_mem_keyValueToken ';' (by decide) kvs hsemi) htne]
      show (if ([] : GoString) ≠ [] then _
        else if (!true) = true then _ else GoResult.ok _) = _
      rw [if_neg (by simp), if_neg (by simp)]
    · -- matrix, not exploded
      apply key
      apply recordPairs_unexploded
      show splitParameter "matrix".toList false true paramName
        (";".toList ++ paramName ++ "=".toList
          ++ strings.Join (keyValueList kvs) ",".toList) = _
      rw [splitParameter_matrix_unexplode, HasPrefix_append, TrimPrefix_append, hJ]
      simp
    · -- form, exploded
      apply key
      apply recordPairs_exploded _ _ _ _ heq
      show splitParameter "form".toList true true paramName
        (strings.Join (kvs.map keyValueToken) ['&']) = _
      rw [splitParameter_form_explode, if_neg (by simp),
        Split_Join _ '&' htne (not_mem_keyValueToken '&' (by decide) kvs hamp)]
  · intro hname
    apply key
    apply recordPairs_unexploded
    exact split_form_unexploded_record paramName kvs hne hname hcomma heq

/-- C6 (witness): the pairs (role, admin), (firstName, Alex) under the
parameter name "id". -/
theorem record_encodings_agree_witness :
    (∀ enc ∈ recordEncodings "id".toList
        [("role".toList, "admin".toList), ("firstName".toList, "Alex".toList)],
      recordPairs enc.1 enc.2.1 "id".toList enc.2.2
        = .ok [("role".toList, "admin".toList), ("firstName".toList, "Alex".toList)]
      ∧ BindStyledParameter sampleDecoders enc.1 enc.2.1 "id".toList enc.2.2 (.struct [])
          = unmarshalFields sampleDecoders "id".toList
              [("role".toList, "admin".toList), ("firstName".toList, "Alex".toList)] [])
    ∧ recordPairs "form".toList false "id".toList "id=role,admin,firstName,Alex".toList
        = .ok [("role".toList, "admin".toList), ("firstName".toList, "Alex".toList)]
    ∧ BindStyledParameter sampleDecoders "form".toList false "id".toList
          "id=role,admin,firstName,Alex".toList (.struct [])
        = unmarshalFields sampleDecoders "id".toList
            [("role".toList, "admin".toList), ("firstName".toList, "Alex".toList)] [] :=
  ⟨(record_encodings_agree sampleDecoders "id".toList
      [("role".toList, "admin".toList), ("firstName".toList, "Alex".toList)] []
      (by decide) (by decide)).1,
   (record_encodings_agree sampleDecoders "id".toList
      [("role".toList, "admin".toList), ("firstName".toList, "Alex".toList)] []
      (by decide) (by decide)).2 (by decide)⟩

/-! ## Label and exploded matrix: the leading separator -/

theorem split_label_explode_dot (object : Bool) (paramName rest : GoString) :
    splitParameter "label".toList true object paramName ('.' :: rest)
      = .ok (strings.Split rest '.') := by
  rw [splitParameter_label_explode, Split_cons_sep]
  show (if ([] : GoString) ≠ [] then _ else GoResult.ok _) = _
  rw [if_neg (by simp)]

theorem split_label_explode_other (object : Bool) (paramName : GoString) (c : Char)
    (rest : GoString) (hc : c ≠ '.') :
    splitParameter "label".toList true object paramName (c :: rest)
      = .err ("invalid format for label parameter '".toList ++ paramName
                ++ "', should start with '.'".toList) := by
  rw [splitParameter_label_explode, Split_cons_ne c rest '.' hc]
  show (if (c :: _ : GoString) ≠ [] then _ else _) = _
  rw [if_pos (by simp)]

theorem split_label_unexplode_dot (object : Bool) (paramName rest : GoString) :
    splitParameter "label".toList false object paramName ('.' :: rest)
      = .ok (strings.Split rest ',') := by
  rw [splitParameter_label_unexplode]
  show (if '.' ≠ '.' then _ else GoResult.ok _) = _
  rw [if_neg (by simp)]

theorem split_label_unexplode_other (object : Bool) (paramName : GoString) (c : Char)
    (rest : GoString) (hc : c ≠ '.') :
    splitParameter "label".toList false object paramName (c :: rest)
      = .err ("invalid format for label parameter '".toList ++ paramName
                ++ "', should start with '.'".toList) := by
  rw [splitParameter_label_unexplode]
  show (if c ≠ '.' then _ else _) = _
  rw [if_pos hc]

theorem split_matrix_explode_semi (object : Bool) (paramName rest : GoString) :
    splitParameter "matrix".toList true object paramName (';' :: rest)
      = (if !object then .ok (trimEach (strings.Split rest ';') (paramName ++ "=".toList))
        else .ok (strings.Split rest ';')) := by
  rw [splitParameter_matrix_explode, Split_cons_sep]
  show (if ([] : GoString) ≠ [] then _ else _) = _
  rw [if_neg (by simp)]

theorem split_matrix_explode_other (object : Bool) (paramName : GoString) (c : Char)
    (rest : GoString) (hc : c ≠ ';') :
    splitParameter "matrix".toList true object paramName (c :: rest)
      = .err ("invalid format for matrix parameter '".toList ++ paramName
                ++ "', should start with ';'".toList) := by
  rw [splitParameter_matrix_explode, Split_cons_ne c rest ';' hc]
  show (if (c :: _ : GoString) ≠ [] then _ else _) = _
  rw [if_pos (by simp)]

theorem trimEach_ne_nil (parts : List GoString) (pfx : GoString) (h : parts ≠ []) :
    trimEach parts pfx ≠ [] := by
  cases parts with
  | nil => exact absurd rfl h
  | cons p ps => simp [trimEach]

/-! ## Matrix style, not exploded -/

/-- C11: for style matrix with explode = false, whatever the object flag,
`splitParameter` succeeds exactly when the raw value starts with
`;paramName=`; the tokens are then the remainder after that prefix split on
`,`; otherwise the error text contains both the parameter name and the
expected prefix. -/
theorem splitParameter_matrix_unexploded (object : Bool) (paramName value : GoString) :
    ((∃ t, splitParameter "matrix".toList false object paramName value = .ok t)
      ↔ (";".toList ++ paramName ++ "=".toList) <+: value)
    ∧ (∀ rest, value = ";".toList ++ paramName ++ "=".toList ++ rest →
        splitParameter "matrix".toList false object paramName value
          = .ok (strings.Split rest ','))
    ∧ (¬ (";".toList ++ paramName ++ "=".toList) <+: value →
        splitParameter "matrix".toList false object paramName value
            = .err ("expected parameter '".toList ++ paramName
                ++ "' to start with ".toList ++ (";".toList ++ paramName ++ "=".toList))
        ∧ Contains ("expected parameter '".toList ++ paramName
              ++ "' to start with ".toList ++ (";".toList ++ paramName ++ "=".toList))
            paramName
        ∧ Contains ("expected parameter '".toList ++ paramName
              ++ "' to start with ".toList ++ (";".toList ++ paramName ++ "=".toList))
            (";".toList ++ paramName ++ "=".toList)) := by
  have hok : ∀ rest, value = ";".toList ++ paramName ++ "=".toList ++ rest →
      splitParameter "matrix".toList false object paramName value
        = .ok (strings.Split rest ',') := by
    rintro rest rfl
    rw [splitParameter_matrix_unexplode, HasPrefix_append, TrimPrefix_append]
    simp
  have herr : ¬ (";".toList ++ paramName ++ "=".toList) <+: value →
      splitParameter "matrix".toList false object paramName value
        = .err ("expected parameter '".toList ++ paramName
            ++ "' to start with ".toList ++ (";".toList ++ paramName ++ "=".toList)) := by
    intro hno
    have hb : strings.HasPrefix value (";".toList ++ paramName ++ "=".toList) = false := by
      cases hp : strings.HasPrefix value (";".toList ++ paramName ++ "=".toList) with
      | false => rfl
      | true => exact absurd ((HasPrefix_iff _ _).mp hp) hno
    rw [splitParameter_matrix_unexplode, hb]
    simp
  refine ⟨⟨?_, ?_⟩, hok, fun hno => ⟨herr hno, ?_, Contains_end _ _⟩⟩
  · rintro ⟨t, ht⟩
    by_contra hno
    rw [herr hno] at ht
    cases ht
  · rintro ⟨rest, hrest⟩
    exact ⟨_, hok rest hrest.symm⟩
  · exact ⟨"expected parameter '".toList, "' to start with ".toList
      ++ (";".toList ++ paramName ++ "=".toList), by simp [List.append_assoc]⟩

/-- C11 (witness): ";id=3,4,5" has the prefix ";id=" and gives 3, 4, 5;
"id=3,4,5" lacks it and is refused. -/
theorem splitParameter_matrix_unexploded_witness :
    splitParameter "matrix".toList false false "id".toList ";id=3,4,5".toList
      = .ok ["3".toList, "4".toList, "5".toList]
    ∧ splitParameter "matrix".toList false false "id".toList "id=3,4,5".toList
      = .err ("expected parameter '".toList ++ "id".toList
          ++ "' to start with ".toList ++ (";".toList ++ "id".toList ++ "=".toList)) :=
  ⟨(splitParameter_matrix_unexploded false "id".toList ";id=3,4,5".toList).2.1
      "3,4,5".toList (by decide),
   ((splitParameter_matrix_unexploded false "id".toList "id=3,4,5".toList).2.2
      (by decide)).1⟩

/-! ## Label style -/

/-- C12: for style label, either explode value, and a non-empty raw value,
`splitParameter` succeeds exactly when the raw value begins with `.`; the
tokens are then the text after that `.` split on `,` (explode = false) or on
`.` (explode = true); otherwise the error text contains the parameter name. -/
theorem splitParameter_label (explode object : Bool) (paramName value : GoString)
    (hvalue : value ≠ []) :
    ((∃ t, splitParameter "label".toList explode object paramName value = .ok t)
      ↔ value.head? = some '.')
    ∧ (∀ rest, value = '.' :: rest →
        splitParameter "label".toList explode object paramName value
          = .ok (strings.Split rest (if explode then '.' else ',')))
    ∧ (value.head? ≠ some '.' →
        splitParameter "label".toList explode object paramName value
            = .err ("invalid format for label parameter '".toList ++ paramName
                ++ "', should start with '.'".toList)
        ∧ Contains ("invalid format for label parameter '".toList ++ paramName
              ++ "', should start with '.'".toList) paramName) := by
  have hok : ∀ rest, value = '.' :: rest →
      splitParameter "label".toList explode object paramName value
        = .ok (strings.Split rest (if explode then '.' else ',')) := by
    rintro rest rfl
    cases explode
    · exact split_label_unexplode_dot object paramName rest
    · exact split_label_explode_dot object paramName rest
  have herr : value.head? ≠ some '.' →
      splitParameter "label".toList explode object paramName value
        = .err ("invalid format for label parameter '".toList ++ paramName
            ++ "', should start with '.'".toList) := by
    intro hno
    match value, hvalue, hno with
    | c :: rest, _, hno =>
      have hc : c ≠ '.' := by
        rintro rfl
        exact hno rfl
      cases explode
      · exact split_label_unexplode_other object paramName c rest hc
      · exact split_label_explode_other object paramName c rest hc
  refine ⟨⟨?_, ?_⟩, hok, fun hno => ⟨herr hno, Contains_mid _ _ _⟩⟩
  · rintro ⟨t, ht⟩
    by_contra hno
    rw [herr hno] at ht
    cases ht
  · intro hhead
    match value, hhead with
    | c :: rest, hhead =>
      have hc : c = '.' := by simpa using hhead
      subst hc
      exact ⟨_, hok rest rfl⟩

/-- C12 (witness): ".3.4.5" exploded gives 3, 4, 5 and "3.4.5" is refused. -/
theorem splitParameter_label_witness :
    splitParameter "label".toList true false "id".toList ".3.4.5".toList
      = .ok ["3".toList, "4".toList, "5".toList]
    ∧ splitParameter "label".toList true false "id".toList "3.4.5".toList
      = .err ("invalid format for label parameter '".toList ++ "id".toList
          ++ "', should start with '.'".toList) :=
  ⟨(splitParameter_label true false "id".toList ".3.4.5".toList (by decide)).2.1
      "3.4.5".toList rfl,
   ((splitParameter_label true false "id".toList "3.4.5".toList (by decide)).2.2
      (by decide)).1⟩

/-! ## Simple style -/

/-- C13: for style simple the explode value plays no part: whatever the raw
value, object flag and parameter name, `splitParameter` with explode = false
and with explode = true both return the raw value split on `,`; "3,4,5" gives
3, 4, 5 either way. -/
theorem splitParameter_simple_explode_insensitive (object : Bool)
    (paramName value : GoString) :
    splitParameter "simple".toList false object paramName value
        = splitParameter "simple".toList true object paramName value
    ∧ splitParameter "simple".toList false object paramName value
        = .ok (strings.Split value ',')
    ∧ splitParameter "simple".toList true object paramName value
        = .ok (strings.Split value ',')
    ∧ splitParameter "simple".toList false object paramName "3,4,5".toList
        = .ok ["3".toList, "4".toList, "5".toList]
    ∧ splitParameter "simple".toList true object paramName "3,4,5".toList
        = .ok ["3".toList, "4".toList, "5".toList] := by
  refine ⟨?_, splitParameter_simple _ _ _ _, splitParameter_simple _ _ _ _, ?_, ?_⟩
  · rw [splitParameter_simple, splitParameter_simple]
  · rw [splitParameter_simple]
    decide
  · rw [splitParameter_simple]
    decide

/-! ## The token sequence is never empty -/

/-- C14: for every style, explode value, object flag, parameter name and
non-empty raw value, a token sequence returned by `splitParameter` has at
least one element. -/
theorem splitParameter_tokens_nonempty (style : GoString) (explode object : Bool)
    (paramName value : GoString) (t : List GoString) (hvalue : value ≠ [])
    (hsplit : splitParameter style explode object paramName value = .ok t) :
    t ≠ [] ∧ 0 < t.length := by
  suffices h : t ≠ [] from ⟨h, List.length_pos.mpr h⟩
  match value, hvalue with
  | c :: rest, _ =>
    by_cases h1 : style = "simple".toList
    · subst h1
      rw [splitParameter_simple] at hsplit
      cases hsplit
      exact Split_ne_nil _ _
    by_cases h2 : style = "label".toList
    · subst h2
      by_cases hc : c = '.'
      · subst hc
        cases explode
        · rw [split_label_unexplode_dot] at hsplit
          cases hsplit
          exact Split_ne_nil _ _
        · rw [split_label_explode_dot] at hsplit
          cases hsplit
          exact Split_ne_nil _ _
      · cases explode
        · rw [split_label_unexplode_other _ _ _ _ hc] at hsplit
          cases hsplit
        · rw [split_label_explode_other _ _ _ _ hc] at hsplit
          cases hsplit
    by_cases h3 : style = "matrix".toList
    · subst h3
      cases explode
      · rw [splitParameter_matrix_unexplode] at hsplit
        split at hsplit
        · cases hsplit
        · cases hsplit
          exact Split_ne_nil _ _
      · by_cases hc : c = ';'
        · subst hc
          rw [split_matrix_explode_semi] at hsplit
          split at hsplit
          · cases hsplit
            exact trimEach_ne_nil _ _ (Split_ne_nil _ _)
          · cases hsplit
            exact Split_ne_nil _ _
        · rw [split_matrix_explode_other _ _ _ _ hc] at hsplit
          cases hsplit
    by_cases h4 : style = "form".toList
    · subst h4
      cases explode
      · rw [splitParameter_form_unexplode] at hsplit
        cases hsplit
        exact trimEach_ne_nil _ _ (Split_ne_nil _ _)
      · rw [splitParameter_form_explode] at hsplit
        split at hsplit
        · cases hsplit
          exact trimEach_ne_nil _ _ (Split_ne_nil _ _)
        · cases hsplit
          exact Split_ne_nil _ _
    · rw [splitParameter_unknown style explode object paramName _ h1 h2 h3 h4] at hsplit
      cases hsplit

/-- C14 (witness): ";" in exploded matrix style gives the one empty token. -/
theorem splitParameter_tokens_nonempty_witness :
    ";".toList ≠ []
    ∧ splitParameter "matrix".toList true true "id".toList ";".toList = .ok [[]]
    ∧ ([[]] : List GoString) ≠ [] ∧ 0 < ([[]] : List GoString).length :=
  ⟨by decide, by decide,
    splitParameter_tokens_nonempty "matrix".toList true true "id".toList ";".toList [[]]
      (by decide) (by decide)⟩

/-! ## The object flag -/

theorem TrimPrefix_spec (p pfx : GoString) :
    (pfx <+: p → p = pfx ++ strings.TrimPrefix p pfx)
    ∧ (¬ pfx <+: p → strings.TrimPrefix p pfx = p) := by
  refine ⟨?_, TrimPrefix_of_not_prefix p pfx⟩
  rintro ⟨r, rfl⟩
  rw [TrimPrefix_append]

/-- C15: the array/record asymmetry of the exploded matrix and form styles.
For style matrix on a raw value beginning with `;` and for style form, with
explode = true: with the object flag on, `splitParameter` returns the pieces
(the text after the leading `;` split on `;`, respectively the raw value split
on `&`) unchanged, so ";role=admin;firstName=Alex" under the name "role" gives
"role=admin", "firstName=Alex"; with the object flag off it returns the same
pieces, each with one leading `paramName=` removed when it has one. -/
theorem splitParameter_exploded_object_flag (paramName rest value : GoString) :
    splitParameter "matrix".toList true true paramName (';' :: rest)
        = .ok (strings.Split rest ';')
    ∧ splitParameter "matrix".toList true false paramName (';' :: rest)
        = .ok ((strings.Split rest ';').map
            (fun p => strings.TrimPrefix p (paramName ++ "=".toList)))
    ∧ splitParameter "form".toList true true paramName value
        = .ok (strings.Split value '&')
    ∧ splitParameter "form".toList true false paramName value
        = .ok ((strings.Split value '&').map
            (fun p => strings.TrimPrefix p (paramName ++ "=".toList)))
    ∧ (∀ p : GoString,
        ((paramName ++ "=".toList) <+: p →
          p = (paramName ++ "=".toList) ++ strings.TrimPrefix p (paramName ++ "=".toList))
        ∧ (¬ (paramName ++ "=".toList) <+: p →
          strings.TrimPrefix p (paramName ++ "=".toList) = p))
    ∧ splitParameter "matrix".toList true true "role".toList
          ";role=admin;firstName=Alex".toList
        = .ok ["role=admin".toList, "firstName=Alex".toList]
    ∧ splitParameter "matrix".toList true false "role".toList
          ";role=admin;firstName=Alex".toList
        = .ok ["admin".toList, "firstName=Alex".toList] := by
  refine ⟨?_, ?_, ?_, ?_, fun p => TrimPrefix_spec p _, by decide, by decide⟩
  · rw [split_matrix_explode_semi, if_neg (by simp)]
  · rw [split_matrix_explode_semi, if_pos (show (!false) = true from rfl)]
    rfl
  · rw [splitParameter_form_explode, if_neg (by simp)]
  · rw [splitParameter_form_explode, if_pos (show (!false) = true from rfl)]
    rfl

/-- C19: the object flag plays no part outside exploded matrix and exploded
form: for style simple and style label (either explode value), and for
styles matrix and form with explode = false, `splitParameter` gives the same
result, tokens or error, with the object flag on and off, for every parameter
name and raw value. -/
theorem splitParameter_object_flag_irrelevant (explode : Bool)
    (paramName value : GoString) :
    splitParameter "simple".toList explode true paramName value
        = splitParameter "simple".toList explode false paramName value
    ∧ splitParameter "label".toList explode true paramName value
        = splitParameter "label".toList explode false paramName value
    ∧ splitParameter "matrix".toList false true paramName value
        = splitParameter "matrix".toList false false paramName value
    ∧ splitParameter "form".toList false true paramName value
        = splitParameter "form".toList false false paramName value := by
  refine ⟨?_, ?_, ?_, ?_⟩
  · rw [splitParameter_simple, splitParameter_simple]
  · cases explode
    · rw [splitParameter_label_unexplode, splitParameter_label_unexplode]
    · rw [splitParameter_label_explode, splitParameter_label_explode]
  · rw [splitParameter_matrix_unexplode, splitParameter_matrix_unexplode]
  · rw [splitParameter_form_unexplode, splitParameter_form_unexplode]

/-! ## Slice destinations: the first decoding error -/

theorem bindElements_first_error {α ρ : Type} (dec : Decoders α ρ)
    (pre : List GoString) (p : GoString) (post : List GoString) (e : GoError)
    (hpre : ∀ q ∈ pre, (dec.BindStringToObject q dec.zero).2 = none)
    (hp : (dec.BindStringToObject p dec.zero).2 = some e) :
    bindElements dec (pre ++ p :: post)
      = (.err ("error setting array element: ".toList ++ e),
          (pre ++ [p]).map Call.BindStringToObject) := by
  induction pre with
  | nil =>
    cases hres : dec.BindStringToObject p dec.zero with
    | mk a e2 =>
      rw [hres] at hp
      simp only at hp
      subst hp
      simp only [List.nil_append, bindElements, hres, List.map_cons, List.map_nil]
  | cons q qs ih =>
    have hq : (dec.BindStringToObject q dec.zero).2 = none := hpre q (by simp)
    have hqs := ih (fun x hx => hpre x (List.mem_cons_of_mem _ hx))
    cases hres : dec.BindStringToObject q dec.zero with
    | mk a e2 =>
      rw [hres] at hq
      simp only at hq
      subst hq
      show bindElements dec (q :: (qs ++ p :: post)) = _
      rw [bindElements]
      simp only [hres, hqs, List.cons_append, List.map_cons]

theorem exists_first_failure {α ρ : Type} (dec : Decoders α ρ) (t : List GoString)
    (hfail : ∃ q ∈ t, (dec.BindStringToObject q dec.zero).2 ≠ none) :
    ∃ pre p post e, t = pre ++ p :: post
      ∧ (∀ q ∈ pre, (dec.BindStringToObject q dec.zero).2 = none)
      ∧ (dec.BindStringToObject p dec.zero).2 = some e := by
  induction t with
  | nil => simp at hfail
  | cons x rest ih =>
    cases hx : (dec.BindStringToObject x dec.zero).2 with
    | some e => exact ⟨[], x, rest, e, rfl, by simp, hx⟩
    | none =>
      have hrest : ∃ q ∈ rest, (dec.BindStringToObject q dec.zero).2 ≠ none := by
        obtain ⟨q, hq, hne⟩ := hfail
        rcases List.mem_cons.mp hq with rfl | hq
        · exact absurd hx hne
        · exact ⟨q, hq, hne⟩
      obtain ⟨pre, p, post, e, ht, hpre, hp⟩ := ih hrest
      refine ⟨x :: pre, p, post, e, by rw [ht]; rfl, ?_, hp⟩
      intro q hq
      rcases List.mem_cons.mp hq with rfl | hq
      · exact hx
      · exact hpre q hq

/-- C16: for a slice destination and a non-empty raw value split into the
tokens `t`, if some token fails to decode then `t` is `pre ++ p :: post` with
every token of `pre` decoding and `p` failing with an error `e`, and
`BindStyledParameter` returns "error setting array element: " followed by
`e`, leaves the destination as it was, and has called the decoder on the
tokens of `pre` and on `p` only: no token of `post` is decoded. -/
theorem BindStyledParameter_slice_first_error {α ρ : Type} (dec : Decoders α ρ)
    (style : GoString) (explode : Bool) (paramName value : GoString) (xs : List α)
    (t : List GoString) (hvalue : value ≠ [])
    (hsplit : splitParameter style explode false paramName value = .ok t)
    (hfail : ∃ q ∈ t, (dec.BindStringToObject q dec.zero).2 ≠ none) :
    ∃ pre p post e, t = pre ++ p :: post
      ∧ (∀ q ∈ pre, (dec.BindStringToObject q dec.zero).2 = none)
      ∧ (dec.BindStringToObject p dec.zero).2 = some e
      ∧ BindStyledParameter dec style explode paramName value (.slice xs)
          = .returned (.slice xs) (some ("error setting array element: ".toList ++ e))
              ((pre ++ [p]).map Call.BindStringToObject) := by
  obtain ⟨pre, p, post, e, ht, hpre, hp⟩ := exists_first_failure dec t hfail
  refine ⟨pre, p, post, e, ht, hpre, hp, ?_⟩
  unfold BindStyledParameter
  rw [if_neg hvalue]
  simp only [hsplit, ht, bindElements_first_error dec pre p post e hpre hp]

/-- C16 (witness): "3,x,y,5" bound in simple style to a slice of numbers: "x"
is the first token that fails, "y" and "5" are never decoded, and the slice
keeps its old content. -/
theorem BindStyledParameter_slice_first_error_witness :
    BindStyledParameter sampleDecoders "simple".toList false "id".toList
        "3,x,y,5".toList (.slice [9])
      = .returned (.slice [9])
          (some ("error setting array element: ".toList ++ "invalid syntax".toList))
          [Call.BindStringToObject "3".toList, Call.BindStringToObject "x".toList]
    ∧ ∃ pre p post e,
        ["3".toList, "x".toList, "y".toList, "5".toList] = pre ++ p :: post
        ∧ (∀ q ∈ pre, (sampleDecoders.BindStringToObject q sampleDecoders.zero).2 = none)
        ∧ (sampleDecoders.BindStringToObject p sampleDecoders.zero).2 = some e
        ∧ BindStyledParameter sampleDecoders "simple".toList false "id".toList
              "3,x,y,5".toList (.slice [9])
            = .returned (.slice [9]) (some ("error setting array element: ".toList ++ e))
                ((pre ++ [p]).map Call.BindStringToObject) :=
  ⟨by decide,
   BindStyledParameter_slice_first_error sampleDecoders "simple".toList false "id".toList
    "3,x,y,5".toList [9] ["3".toList, "x".toList, "y".toList, "5".toList]
    (by decide) (by decide) ⟨"x".toList, by decide, by decide⟩⟩

/-! ## The destination on error -/

theorem BindStyledParameter_slice_error_dest {α ρ : Type} (dec : Decoders α ρ)
    (style : GoString) (explode : Bool) (paramName value : GoString) (xs : List α)
    (d : Dest α ρ) (e : GoError) (calls : List Call)
    (h : BindStyledParameter dec style explode paramName value (.slice xs)
      = .returned d (some e) calls) : d = .slice xs := by
  unfold BindStyledParameter at h
  by_cases hvalue : value = []
  · rw [if_pos hvalue] at h
    injection h with h1 _ _
    exact h1.symm
  · rw [if_neg hvalue] at h
    simp only at h
    cases hs : splitParameter style explode false paramName value with
    | panic =>
      rw [hs] at h
      cases h
    | err e2 =>
      rw [hs] at h
      injection h with h1 _ _
      exact h1.symm
    | ok parts =>
      rw [hs] at h
      simp only at h
      rcases hb : bindElements dec parts with ⟨res, cs⟩
      rw [hb] at h
      cases res with
      | ok newArray =>
        simp only at h
        injection h with _ h2 _
        cases h2
      | err e3 =>
        simp only at h
        injection h with h1 _ _
        exact h1.symm
      | panic =>
        simp only at h
        cases h

/-- C17: no partial result is left on error. For a slice destination,
whenever `BindStyledParameter` returns an error (for an empty value, a
tokenizer error or a decoding error of any element) the destination holds the
slice it held before. For a struct destination, an empty raw value, a
tokenizer error and a pairing error each make it return an error with the
destination as before and no decoder call made. -/
theorem BindStyledParameter_error_keeps_destination {α ρ : Type} (dec : Decoders α ρ)
    (style : GoString) (explode : Bool) (paramName value : GoString) :
    (∀ (xs : List α) (d : Dest α ρ) (e : GoError) (calls : List Call),
      BindStyledParameter dec style explode paramName value (.slice xs)
        = .returned d (some e) calls → d = .slice xs)
    ∧ (∀ r : ρ, value = [] →
        ∃ msg, BindStyledParameter dec style explode paramName value (.struct r)
          = .returned (.struct r) (some msg) [])
    ∧ (∀ (r : ρ) (e : GoError), value ≠ [] →
        splitParameter style explode true paramName value = .err e →
        ∃ msg, BindStyledParameter dec style explode paramName value (.struct r)
          = .returned (.struct r) (some msg) [])
    ∧ (∀ (r : ρ) (t : List GoString) (e : GoError), value ≠ [] →
        splitParameter style explode true paramName value = .ok t →
        (if explode then explodedPairs paramName t else unexplodedPairs paramName t)
          = .err e →
        BindStyledParameter dec style explode paramName value (.struct r)
          = .returned (.struct r) (some e) []) := by
  refine ⟨fun xs d e calls h =>
    BindStyledParameter_slice_error_dest dec style explode paramName value xs d e calls h,
    ?_, ?_, ?_⟩
  · rintro r rfl
    refine ⟨"parameter '".toList ++ paramName
      ++ "' is empty, can't bind its value".toList, ?_⟩
    unfold BindStyledParameter
    rw [if_pos rfl]
  · intro r e hvalue hs
    refine ⟨"error splitting input '".toList ++ value ++ "' into parts: ".toList ++ e, ?_⟩
    rw [BindStyledParameter_struct dec style explode paramName value r hvalue]
    unfold recordPairs
    rw [hs]
  · intro r t e hvalue hs hp
    rw [BindStyledParameter_struct dec style explode paramName value r hvalue,
      recordPairs_of_split _ _ _ _ _ hs, hp]

/-- C17 (witness): a slice holding 9 is still 9 after "3,x" fails to decode,
and a struct is untouched after the odd part list "a,b,c". -/
theorem BindStyledParameter_error_keeps_destination_witness :
    BindStyledParameter sampleDecoders "simple".toList false "id".toList "3,x".toList
        (.slice [9])
      = .returned (.slice [9])
          (some ("error setting array element: ".toList ++ "invalid syntax".toList))
          [Call.BindStringToObject "3".toList, Call.BindStringToObject "x".toList]
    ∧ (Dest.slice [9] : Dest Nat GoString) = .slice [9]
    ∧ BindStyledParameter sampleDecoders "simple".toList false "id".toList "a,b,c".toList
        (.struct "old".toList)
      = .returned (.struct "old".toList)
          (some ("parameter '".toList ++ "id".toList
            ++ "' has invalid format, property/values need to be pairs".toList)) [] :=
  ⟨by decide,
   (BindStyledParameter_error_keeps_destination sampleDecoders "simple".toList false
      "id".toList "3,x".toList).1 [9] (.slice [9])
      ("error setting array element: ".toList ++ "invalid syntax".toList)
      [Call.BindStringToObject "3".toList, Call.BindStringToObject "x".toList] (by decide),
   (BindStyledParameter_error_keeps_destination sampleDecoders "simple".toList false
      "id".toList "a,b,c".toList).2.2.2 "old".toList
      ["a".toList, "b".toList, "c".toList]
      ("parameter '".toList ++ "id".toList
        ++ "' has invalid format, property/values need to be pairs".toList)
      (by decide) (by decide) (by decide)⟩

/-! ## Index accesses stay in range -/

theorem keyValueList_append (a b : List (GoString × GoString)) :
    keyValueList (a ++ b) = keyValueList a ++ keyValueList b := by
  induction a with
  | nil => rfl
  | cons kv rest ih =>
    show kv.1 :: kv.2 :: keyValueList (rest ++ b) = _
    rw [ih]
    rfl

theorem keyValueList_pairsAt (n : Nat) (t : List GoString) (hlen : t.length = 2 * n) :
    keyValueList (pairsAt t) = t := by
  induction n generalizing t with
  | zero =>
    have : t = [] := List.length_eq_zero.mp (by simpa using hlen)
    subst this
    rfl
  | succ m ih =>
    match t, hlen with
    | k :: v :: rest, hlen =>
      have hrest : rest.length = 2 * m := by
        simp only [List.length_cons] at hlen
        omega
      rw [pairsAt_cons_cons, keyValueList, ih rest hrest]

theorem pairLoop_invariant (post pre : List (GoString × GoString)) :
    pairLoop (keyValueList pre ++ keyValueList post) (2 * pre.length)
        (pre.map jsonField ++ List.replicate post.length [])
      = .ok ((pre ++ post).map jsonField) := by
  induction post generalizing pre with
  | nil =>
    rw [pairLoop, if_neg (by simp [keyValueList, length_keyValueList])]
    simp
  | cons kv rest ih =>
    have hlen : (keyValueList pre).length = 2 * pre.length := length_keyValueList pre
    have h0 : (keyValueList pre ++ keyValueList (kv :: rest))[2 * pre.length]?
        = some kv.1 := by
      rw [List.getElem?_append_right (by omega), hlen]
      simp [keyValueList]
    have h1 : (keyValueList pre ++ keyValueList (kv :: rest))[2 * pre.length + 1]?
        = some kv.2 := by
      rw [List.getElem?_append_right (by omega), hlen]
      have : 2 * pre.length + 1 - 2 * pre.length = 1 := by omega
      simp [keyValueList, this]
    have hset : (pre.map jsonField ++ List.replicate (kv :: rest).length ([] : GoString)).set
          (2 * pre.length / 2) (jsonField (kv.1, kv.2))
        = (pre ++ [kv]).map jsonField ++ List.replicate rest.length [] := by
      have hidx : 2 * pre.length / 2 = (pre.map jsonField).length := by
        simp
      rw [hidx, List.set_append_right _ _ (Nat.le_refl _)]
      simp [List.replicate_succ]
    have hnext := ih (pre ++ [kv])
    have hparts : keyValueList (pre ++ [kv]) ++ keyValueList rest
        = keyValueList pre ++ keyValueList (kv :: rest) := by
      rw [keyValueList_append]
      simp [keyValueList]
    have hi : 2 * (pre ++ [kv]).length = 2 * pre.length + 2 := by
      simp only [List.length_append, List.length_singleton]
      omega
    rw [hparts, hi] at hnext
    rw [pairLoop, if_pos (by simp [length_keyValueList, keyValueList]), h0, h1]
    simp only
    rw [if_pos (by simp), hset, hnext]
    simp

theorem pairLoop_of_even (parts : List GoString) (heven : parts.length % 2 = 0) :
    pairLoop parts 0 (List.replicate (parts.length / 2) [])
      = .ok ((pairsAt parts).map jsonField) := by
  have hkv := keyValueList_pairsAt (parts.length / 2) parts (by omega)
  have h := pairLoop_invariant (pairsAt parts) []
  simp only [keyValueList, List.nil_append, List.length_nil, Nat.mul_zero, List.map_nil,
    length_pairsAt] at h
  rw [hkv] at h
  exact h

theorem splitParameter_ne_panic (style : GoString) (explode object : Bool)
    (paramName value : GoString) (hvalue : value ≠ []) :
    splitParameter style explode object paramName value ≠ .panic := by
  match value, hvalue with
  | c :: rest, _ =>
    by_cases h1 : style = "simple".toList
    · subst h1
      rw [splitParameter_simple]
      simp
    by_cases h2 : style = "label".toList
    · subst h2
      by_cases hc : c = '.'
      · subst hc
        cases explode
        · rw [split_label_unexplode_dot]
          simp
        · rw [split_label_explode_dot]
          simp
      · cases explode
        · rw [split_label_unexplode_other _ _ _ _ hc]
          simp
        · rw [split_label_explode_other _ _ _ _ hc]
          simp
    by_cases h3 : style = "matrix".toList
    · subst h3
      cases explode
      · rw [splitParameter_matrix_unexplode]
        split <;> simp
      · by_cases hc : c = ';'
        · subst hc
          rw [split_matrix_explode_semi]
          split <;> simp
        · rw [split_matrix_explode_other _ _ _ _ hc]
          simp
    by_cases h4 : style = "form".toList
    · subst h4
      cases explode
      · rw [splitParameter_form_unexplode]
        simp
      · rw [splitParameter_form_explode]
        split <;> simp
    · rw [splitParameter_unknown style explode object paramName _ h1 h2 h3 h4]
      simp

theorem explodedPairs_ne_panic (paramName : GoString) (t : List GoString) :
    explodedPairs paramName t ≠ .panic := by
  induction t with
  | nil => simp [explodedPairs]
  | cons tok rest ih =>
    unfold explodedPairs
    split
    · split
      · simp
      · rename_i r hr
        exact ih
    · simp

theorem unexplodedPairs_ne_panic (paramName : GoString) (parts : List GoString) :
    unexplodedPairs paramName parts ≠ .panic := by
  unfold unexplodedPairs
  split
  · simp
  · rw [pairUp_of_even (parts.length / 2) parts (by omega)]
    simp

theorem bindElements_ne_panic {α ρ : Type} (dec : Decoders α ρ) (t : List GoString) :
    (bindElements dec t).1 ≠ .panic := by
  induction t with
  | nil => simp [bindElements]
  | cons p ps ih =>
    unfold bindElements
    split
    · simp
    · split
      · simp
      · rename_i r calls hr hb
        rw [hb] at ih
        exact ih

theorem unmarshalFields_ne_panic {α ρ : Type} (dec : Decoders α ρ) (paramName : GoString)
    (pairs : List (GoString × GoString)) (r : ρ) :
    unmarshalFields dec paramName pairs r ≠ .panic := by
  obtain ⟨d, e, h⟩ := unmarshalFields_calls dec paramName pairs r
  rw [h]
  simp

theorem recordPairs_ne_panic (style : GoString) (explode : Bool)
    (paramName value : GoString) (hvalue : value ≠ []) :
    recordPairs style explode paramName value ≠ .panic := by
  unfold recordPairs
  have hs := splitParameter_ne_panic style explode true paramName value hvalue
  split
  · rename_i h
    exact absurd h hs
  · simp
  · cases explode
    · exact unexplodedPairs_ne_panic _ _
    · exact explodedPairs_ne_panic _ _

theorem BindStyledParameter_ne_panic {α ρ : Type} (dec : Decoders α ρ) (style : GoString)
    (explode : Bool) (paramName value : GoString) (dest : Dest α ρ) :
    BindStyledParameter dec style explode paramName value dest ≠ .panic := by
  by_cases hvalue : value = []
  · unfold BindStyledParameter
    rw [if_pos hvalue]
    simp
  · cases dest with
    | struct r =>
      rw [BindStyledParameter_struct dec style explode paramName value r hvalue]
      have hr := recordPairs_ne_panic style explode paramName value hvalue
      split
      · rename_i h
        exact absurd h hr
      · simp
      · exact unmarshalFields_ne_panic _ _ _ _
    | slice xs =>
      unfold BindStyledParameter
      rw [if_neg hvalue]
      simp only
      have hs := splitParameter_ne_panic style explode false paramName value hvalue
      split
      · rename_i h
        exact absurd h hs
      · simp
      · rename_i parts _
        have hb := bindElements_ne_panic dec parts
        split
        · simp
        · simp
        · rename_i h
          rw [h] at hb
          exact absurd rfl hb
    | base a =>
      unfold BindStyledParameter
      rw [if_neg hvalue]
      simp

/-- C18: no index goes out of range. For a non-empty raw value
`splitParameter` never panics, whatever the style, explode value, object flag
and parameter name: `value[0]`, `parts[0]` and `parts[1:]` are in bounds. In
the non-exploded record pairing, which runs only on an even number of parts,
every `i` the loop reaches has `i+1 < len(parts)` and `i/2 < len(parts)/2`:
the loop with explicit indices ends without a panic and fills `fields` with
the same pairs as the pairing used by `BindStyledParameter`, which itself
never panics. -/
theorem no_index_out_of_range {α ρ : Type} (dec : Decoders α ρ) (style : GoString)
    (explode object : Bool) (paramName value : GoString) (parts : List GoString)
    (dest : Dest α ρ) :
    (value ≠ [] → splitParameter style explode object paramName value ≠ .panic)
    ∧ unexplodedPairs paramName parts ≠ .panic
    ∧ (parts.length % 2 = 0 →
        pairLoop parts 0 (List.replicate (parts.length / 2) [])
            = .ok ((pairsAt parts).map jsonField)
        ∧ unexplodedPairs paramName parts = .ok (pairsAt parts)
        ∧ ∀ i, i < parts.length → i % 2 = 0 →
            i + 1 < parts.length ∧ i / 2 < parts.length / 2)
    ∧ BindStyledParameter dec style explode paramName value dest ≠ .panic := by
  refine ⟨splitParameter_ne_panic style explode object paramName value,
    unexplodedPairs_ne_panic paramName parts, ?_,
    BindStyledParameter_ne_panic dec style explode paramName value dest⟩
  intro heven
  refine ⟨pairLoop_of_even parts heven, ?_, ?_⟩
  · unfold unexplodedPairs
    rw [if_neg (by omega)]
    exact pairUp_of_even (parts.length / 2) parts (by omega)
  · intro i hi hmod
    omega

/-- C18 (witness): the label value ".role,admin,firstName,Alex" and its four
parts. -/
theorem no_index_out_of_range_witness :
    splitParameter "label".toList false true "id".toList ".role,admin,firstName,Alex".toList
      ≠ .panic
    ∧ pairLoop ["role".toList, "admin".toList, "firstName".toList, "Alex".toList] 0
        [[], []]
      = .ok ["\"role\":\"admin\"".toList, "\"firstName\":\"Alex\"".toList]
    ∧ BindStyledParameter sampleDecoders "label".toList false "id".toList
        ".role,admin,firstName,Alex".toList (.struct []) ≠ .panic :=
  ⟨(no_index_out_of_range sampleDecoders "label".toList false true "id".toList
      ".role,admin,firstName,Alex".toList [] (.struct [])).1 (by decide),
   ((no_index_out_of_range sampleDecoders "label".toList false true "id".toList
      ".role,admin,firstName,Alex".toList
      ["role".toList, "admin".toList, "firstName".toList, "Alex".toList]
      (.struct [])).2.2.1 (by decide)).1,
   (no_index_out_of_range sampleDecoders "label".toList false true "id".toList
      ".role,admin,firstName,Alex".toList [] (.struct [])).2.2.2⟩

end Runtime
